import Mathlib

/-!
Verification of the plainbox provider-content loading core
(`plainbox.impl.secure.providers.v1` and the record grammar of
`plainbox.impl.secure.rfc822`).

Strings are modelled at two levels: the record parser and writer work on
`List Char` (one Python `str` is one list of characters) and the public
entry points wrap them into `String` at the boundary.
-/

namespace Plainbox

/-- Characters treated as whitespace by Python `str.strip()` (the line
splitter removes newlines before `strip` ever sees them, but we keep the
full set). -/
def isPySpace (c : Char) : Bool :=
  c == ' ' || c == '\t' || c == '\n' || c == '\r' || c == '\x0b' || c == '\x0c'

/-- Python `str.strip()`: drop leading and trailing whitespace. -/
def stripChars (cs : List Char) : List Char :=
  ((cs.dropWhile isPySpace).reverse.dropWhile isPySpace).reverse

/-- Split a text into lines the way Python iterates a text stream: each
`\n` ends a line, and a final line without a terminator is still a line.
The empty text has no lines. -/
def splitLinesGo : List Char → List Char → List (List Char)
  | acc, [] => [acc.reverse]
  | acc, c :: cs =>
    if c = '\n' then
      acc.reverse :: (if cs.isEmpty then [] else splitLinesGo [] cs)
    else
      splitLinesGo (c :: acc) cs

/-- Lines of a Python text stream (see `splitLinesGo`). -/
def pyLines (cs : List Char) : List (List Char) :=
  match cs with
  | [] => []
  | cs => splitLinesGo [] cs

/-- Python `str.split("\n")`: like `pyLines` but a trailing newline
produces a trailing empty chunk. -/
def splitNlGo : List Char → List Char → List (List Char)
  | acc, [] => [acc.reverse]
  | acc, c :: cs =>
    if c = '\n' then acc.reverse :: splitNlGo [] cs
    else splitNlGo (c :: acc) cs

/-- Python `value.split("\n")`. -/
def splitNl (cs : List Char) : List (List Char) :=
  splitNlGo [] cs

/-- Join chunks with a `\n` separator (Python `"\n".join(...)`). -/
def joinNl : List (List Char) → List Char
  | [] => []
  | [l] => l
  | l :: ls => l ++ '\n' :: joinNl ls

/-- Split a line at its first colon, like Python `line.split(":", 1)`
when a colon is present (`none` when the line has no colon). -/
def splitFirstColon : List Char → Option (List Char × List Char)
  | [] => none
  | c :: cs =>
    if c = ':' then some ([], cs)
    else (splitFirstColon cs).map (fun p => (c :: p.1, p.2))

/-- Association-list lookup with string keys (Python `key in record` /
`record[key]` over the ordered field mapping). -/
def lookupStr (k : List Char) : List (List Char × List Char) → Option (List Char)
  | [] => none
  | (x, v) :: r => if x = k then some v else lookupStr k r

/-- A non-empty run of periods (the rfc822 continuation escape alphabet). -/
def allDots (cs : List Char) : Bool :=
  !cs.isEmpty && cs.all (· == '.')

namespace rfc822

/-!
Modelled from the spec: the module `plainbox.impl.secure.rfc822`
(`load_rfc822_records` and `RFC822Record.dump`) is not among the source
files; only its test suite `test_rfc822.py` is. The parser and writer
below follow the grammar of spec section 4.1 (blank-line record
separation, first-colon key/value split with whitespace stripping,
single-leading-space continuation lines, period escapes, duplicate-key
and stray-line errors) and reproduce the concrete behaviour pinned down
by `RFC822ParserTestsMixIn` and `RFC822WriterTests`.
-/

/-- A parsed record, at the character-list level: the ordered field
mapping of one record.  Origins are not tracked (every claim about the
parser compares field mappings with Origin excluded). -/
abbrev RecL := List (List Char × List Char)

/-- A syntax error raised by the parser: line number and message
(the source descriptor is irrelevant to the claims). -/
structure SyntaxErr where
  lineno : Nat
  msg : List Char
deriving DecidableEq, Repr

/-- Parser state: committed records, the fields of the record under
construction, the currently open field key, and the value lines
accumulated for it. -/
structure ParserState where
  records : List RecL
  fields : RecL
  key : Option (List Char)
  valueParts : List (List Char)
deriving Repr

/-- The initial parser state. -/
def initState : ParserState := ⟨[], [], none, []⟩

/-- Close the currently open field, joining its value lines with `\n`. -/
def flushField (st : ParserState) : ParserState :=
  { st with
    fields := st.fields ++ (match st.key with
                            | none => []
                            | some k => [(k, joinNl st.valueParts)]),
    key := none, valueParts := [] }

/-- Close the record under construction (no empty records are produced
for consecutive blank lines). -/
def flushRecord (st : ParserState) : ParserState :=
  if (flushField st).fields.isEmpty then flushField st
  else { flushField st with
         records := st.records ++ [(flushField st).fields], fields := [] }

/-- Decode one continuation line: a line whose stripped content is one
or more periods is an escape (a single period stands for an empty line,
a run of N periods stands for N-1 periods); anything else is literal. -/
def decodeDots (cs : List Char) : List Char :=
  if allDots (stripChars cs) then (stripChars cs).dropLast else cs

/-- The single-quote character Python `repr` puts around the reported
values. -/
def quoteChar : Char := Char.ofNat 39

/-- The duplicate-key error message, as produced by the parser
(format pinned by `test_duplicate_error`). -/
def dupMsg (k old new : List Char) : List Char :=
  "Job has a duplicate key ".data ++ [quoteChar] ++ k ++ [quoteChar]
    ++ " with old value ".data ++ [quoteChar] ++ old ++ [quoteChar]
    ++ " and new value ".data ++ [quoteChar] ++ new ++ [quoteChar]

/-- Process one line of input (the heart of the grammar):
blank lines close the record; lines starting with a space continue the
open field (error when none is open); lines with a colon start a new
field (error when the key repeats); anything else is a stray line. -/
def processLine (st : ParserState) (lineno : Nat) (line : List Char) :
    Except SyntaxErr ParserState :=
  if stripChars line = [] then
    .ok (flushRecord st)
  else if line.head? = some ' ' then
    match st.key with
    | none => .error ⟨lineno, "Unexpected multi-line value".data⟩
    | some _ => .ok { st with valueParts := st.valueParts ++ [decodeDots line.tail] }
  else
    match splitFirstColon line with
    | some (kcs, vcs) =>
      let k := stripChars kcs
      let v := stripChars vcs
      let st := flushField st
      match lookupStr k st.fields with
      | some old => .error ⟨lineno, dupMsg k old v⟩
      | none =>
        .ok { st with key := some k, valueParts := if v.isEmpty then [] else [v] }
    | none => .error ⟨lineno, "Unexpected non-empty line".data⟩

/-- Run the parser over a list of lines, numbering them from `n`. -/
def parseLoop (st : ParserState) (n : Nat) :
    List (List Char) → Except SyntaxErr ParserState
  | [] => .ok st
  | l :: ls =>
    match processLine st n l with
    | .error e => .error e
    | .ok st => parseLoop st (n + 1) ls

/-- Parse a whole text into records, at the character-list level. -/
def parseChars (cs : List Char) : Except SyntaxErr (List RecL) :=
  (parseLoop initState 1 (pyLines cs)).map (fun st => (flushRecord st).records)

/-- A record at the `String` level (the shape the loaders consume). -/
abbrev Rec := List (String × String)

/-- Boundary conversion of one record. -/
def recOfRecL (r : RecL) : Rec :=
  r.map (fun p => (⟨p.1⟩, ⟨p.2⟩))

/-- Modelled from the spec: `load_rfc822_records` — parse a text into the
list of its records, or fail with the first syntax error. -/
def load_rfc822_records (text : String) : Except SyntaxErr (List Rec) :=
  (parseChars text.data).map (fun rs => rs.map recOfRecL)

/-- Encode one continuation line of a value being written: an empty line
becomes a single period, an all-period line gets one period prepended,
everything else is written verbatim; a single leading space marks the
continuation. -/
def dumpCont (l : List Char) : List Char :=
  if l.isEmpty then " .".data
  else if allDots l then ' ' :: '.' :: l
  else ' ' :: l

/-- The lines one field contributes to the serialized form: multi-line
values use an empty `key:` line followed by escaped continuations,
single-line values are written inline. -/
def dumpFieldLines (k v : List Char) : List (List Char) :=
  if '\n' ∈ v then (k ++ [':']) :: (splitNl v).map dumpCont
  else [k ++ ':' :: ' ' :: v]

/-- All lines of one serialized record, including the terminating blank
line. -/
def dumpLines (r : RecL) : List (List Char) :=
  (r.flatMap (fun p => dumpFieldLines p.1 p.2)) ++ [[]]

/-- Modelled from the spec: `RFC822Record.dump` — serialize one record
(field order preserved), each line `\n`-terminated, the record closed by
a blank line. -/
def dump (r : Rec) : String :=
  ⟨(dumpLines (r.map (fun p => (p.1.data, p.2.data)))).flatMap (fun l => l ++ ['\n'])⟩

end rfc822

/-!
The provider content classifier
(`plainbox.impl.secure.providers.v1.ProviderContentClassifier`).
Filenames are `String`s; the read-only file-system probes performed by the
executable rules (`os.access`, reading the first two bytes, the
`src/EXECUTABLES` hint file) are supplied as a pure environment.
-/

/-- Roles a classified file can have (`plainbox.impl.unit.file.FileRole`
symbols referenced by the classifier). -/
inductive FileRole where
  | unit_source
  | legacy_whitelist
  | data
  | script
  | binary
  | i18n
  | build
  | legal
  | docs
  | manage_py
  | src
  | vcs
  | unknown
deriving DecidableEq, Repr

/-- The plug-in classes a classification can select as loader strategy. -/
inductive LoaderCls where
  | UnitPlugIn2
  | WhiteListPlugIn2
  | ProviderContentPlugIn
deriving DecidableEq, Repr

/-- The classification of one file: role, base directory (the directory
attribute mentioned by the matching rule, which can be the possibly-absent
base directory) and the loader strategy (`none` means acknowledged but not
a load target). -/
abbrev ClassifyResult := FileRole × Option String × Option LoaderCls

/-- Python `filename.startswith(d)`. -/
def pyStartsWith (s d : String) : Bool := d.data.isPrefixOf s.data

/-- Python `filename.endswith(d)`. -/
def pyEndsWith (s d : String) : Bool := d.data.isSuffixOf s.data

/-- Characters strictly after the last dot, `none` when there is no dot. -/
def afterLastDot : List Char → Option (List Char)
  | [] => none
  | c :: cs =>
    match afterLastDot cs with
    | some e => some e
    | none => if c = '.' then some cs else none

/-- The basename of a path (everything after the last slash). -/
def pyBasename (f : String) : String :=
  ⟨(f.data.reverse.takeWhile (· ≠ '/')).reverse⟩

/-- The characters of the extension of a path, without the leading dot:
everything after the last dot of the basename, where the leading dots of
the basename never start an extension. -/
def extCandidate (f : String) : Option (List Char) :=
  afterLastDot (((f.data.reverse.takeWhile (· ≠ '/')).reverse).dropWhile (· == '.'))

/-- Python `os.path.splitext(filename)[1]`: the extension including its
leading dot; the leading dots of the basename never start an extension. -/
def splitextExt (f : String) : String :=
  match extCandidate f with
  | some e => ⟨'.' :: e⟩
  | none => ""

/-- Python `os.path.splitext(filename)[0]`: the path minus its extension. -/
def splitextRoot (f : String) : String :=
  ⟨f.data.take (f.data.length - (splitextExt f).data.length)⟩

/-- Remove trailing slashes unless the path consists only of slashes
(the tail rule of `os.path.split`). -/
def stripTrailingSlashes (cs : List Char) : List Char :=
  if cs.all (· == '/') then cs else (cs.reverse.dropWhile (· == '/')).reverse

/-- Python `os.path.dirname`. -/
def pyDirname (f : String) : String :=
  if '/' ∈ f.data then
    ⟨stripTrailingSlashes ((f.data.reverse.dropWhile (· ≠ '/')).reverse)⟩
  else ""

/-- Python `os.path.split`. -/
def pySplitPath (f : String) : String × String :=
  (pyDirname f, pyBasename f)

/-- Python `os.path.join(a, b)` for a relative `b`. -/
def pyJoin (a b : String) : String :=
  if a = "" then b
  else if a.data.getLast? = some '/' then a ++ b
  else a ++ "/" ++ b

/-- The directory attributes of a provider that the classifier consults
(each can be absent, mirroring `None` in Python). -/
structure ProviderDirs where
  jobs_dir : Option String
  units_dir : Option String
  whitelists_dir : Option String
  data_dir : Option String
  bin_dir : Option String
  build_bin_dir : Option String
  build_mo_dir : Option String
  build_dir : Option String
  po_dir : Option String
  src_dir : Option String
  base_dir : Option String
deriving DecidableEq, Repr

/-- Pure record of the read-only file-system probes the executable rules
perform. -/
structure FsEnv where
  isExecutable : String → Bool
  hasShebang : String → Bool
  executables : List String

namespace ProviderContentClassifier

/-- Filenames treated as legal documents. -/
def LEGAL_SET : List String := ["COPYING", "COPYING.LESSER", "LICENSE"]

/-- Filenames treated as documentation. -/
def DOC_SET : List String := ["README", "README.md", "README.rst", "README.txt"]

/-- Rule: certain files in `jobs_dir` are unit sources. -/
def classify_pxu_jobs (jobs_dir : String) (f : String) : Option ClassifyResult :=
  if pyStartsWith f jobs_dir then
    if splitextExt f ∈ ([".txt", ".in", ".pxu"] : List String) then
      some (.unit_source, some jobs_dir, some .UnitPlugIn2)
    else none
  else none

/-- Rule: certain files in `units_dir` are unit sources. -/
def classify_pxu_units (units_dir : String) (f : String) : Option ClassifyResult :=
  if pyStartsWith f units_dir then
    if splitextExt f ∈ ([".txt", ".txt.in", ".pxu"] : List String) then
      some (.unit_source, some units_dir, some .UnitPlugIn2)
    else none
  else none

/-- Rule: `.whitelist` files in `whitelists_dir` are legacy whitelists. -/
def classify_whitelist (whitelists_dir : String) (f : String) : Option ClassifyResult :=
  if pyStartsWith f whitelists_dir && pyEndsWith f ".whitelist" then
    some (.legacy_whitelist, some whitelists_dir, some .WhiteListPlugIn2)
  else none

/-- Rule: files in `data_dir` are data. -/
def classify_data (data_dir : String) (f : String) : Option ClassifyResult :=
  if pyStartsWith f data_dir then
    some (.data, some data_dir, some .ProviderContentPlugIn)
  else none

/-- Rule: executable files in `bin_dir` are scripts or binaries. -/
def classify_exec (env : FsEnv) (bin_dir : String) (f : String) : Option ClassifyResult :=
  if pyStartsWith f bin_dir && env.isExecutable f then
    some (if env.hasShebang f then .script else .binary,
          some bin_dir, some .ProviderContentPlugIn)
  else none

/-- Rule: hinted executable files in `build_bin_dir` are scripts or
binaries. -/
def classify_built_exec (env : FsEnv) (build_bin_dir : String) (f : String) : Option ClassifyResult :=
  if pyStartsWith f build_bin_dir && env.isExecutable f
      && env.executables.contains (pyBasename f) then
    some (if env.hasShebang f then .script else .binary,
          some build_bin_dir, some .ProviderContentPlugIn)
  else none

/-- Rule: `.mo` files in `build_mo_dir` are translation catalogs (the
returned base is `build_bin_dir`, exactly as in the source). -/
def classify_built_i18n (build_mo_dir : String) (build_bin_dir : Option String)
    (f : String) : Option ClassifyResult :=
  if pyStartsWith f build_mo_dir && splitextExt f == ".mo" then
    some (.i18n, build_bin_dir, some .ProviderContentPlugIn)
  else none

/-- Rule: anything in `build_dir` is a build artefact. -/
def classify_build (build_dir : String) (f : String) : Option ClassifyResult :=
  if pyStartsWith f build_dir then some (.build, some build_dir, none) else none

/-- Rule: legal documents anywhere. -/
def classify_legal (base_dir : String) (f : String) : Option ClassifyResult :=
  if LEGAL_SET.contains (pyBasename f) then
    some (.legal, some base_dir, some .ProviderContentPlugIn)
  else none

/-- Rule: documentation files anywhere. -/
def classify_docs (base_dir : String) (f : String) : Option ClassifyResult :=
  if DOC_SET.contains (pyBasename f) then
    some (.docs, some base_dir, some .ProviderContentPlugIn)
  else none

/-- Rule: the `manage.py` file at the base directory. -/
def classify_manage_py (base_dir : String) (f : String) : Option ClassifyResult :=
  if pyJoin base_dir "manage.py" = f then some (.manage_py, some base_dir, none) else none

/-- Rule: translation sources in `po_dir`. -/
def classify_po (po_dir : String) (base_dir : Option String) (f : String) :
    Option ClassifyResult :=
  if pyDirname f = po_dir
      && (splitextExt f ∈ ([".po", ".pot"] : List String)
          || pyBasename f = "POTFILES.in") then
    some (.src, base_dir, none)
  else none

/-- Rule: anything in `src_dir` is source. -/
def classify_src (src_dir : String) (base_dir : Option String) (f : String) :
    Option ClassifyResult :=
  if pyStartsWith f src_dir then some (.src, base_dir, none) else none

/-- The upward walk of the VCS rule, fuelled to mirror the `while` loop. -/
def vcsWalk (base_dir : String) : Nat → String → Option ClassifyResult
  | 0, _ => none
  | fuel + 1, head =>
    if head = base_dir || head = "" || head = "/" then none
    else if (pySplitPath head).2 = ".git" || (pySplitPath head).2 = ".bzr" then
      some (.vcs, some base_dir, none)
    else vcsWalk base_dir fuel (pySplitPath head).1

/-- Rule: version-control metadata. -/
def classify_vcs (base_dir : String) (f : String) : Option ClassifyResult :=
  if pyBasename f = ".gitignore" || pyBasename f = ".bzrignore" then
    some (.vcs, some base_dir, none)
  else vcsWalk base_dir (f.data.length + 1) f

/-- The catch-all rule: anything is an unknown file. -/
def classify_unknown (base_dir : Option String) (_f : String) : Option ClassifyResult :=
  some (.unknown, base_dir, none)

/-- Build the singleton rule list for an optionally declared directory. -/
def optRule {α : Type} (o : Option String) (f : String → α) : List α :=
  match o with
  | some d => [f d]
  | none => []

/-- The ordered rule list (`_get_classify_fn_list`): one rule per declared
directory, then — when a base directory is declared — the legal, docs,
`manage.py` and VCS rules, and always the catch-all rule last. -/
def get_classify_fn_list (cfg : ProviderDirs) (env : FsEnv) :
    List (String → Option ClassifyResult) :=
  optRule cfg.jobs_dir (fun d => classify_pxu_jobs d) ++
  optRule cfg.units_dir (fun d => classify_pxu_units d) ++
  optRule cfg.whitelists_dir (fun d => classify_whitelist d) ++
  optRule cfg.data_dir (fun d => classify_data d) ++
  optRule cfg.bin_dir (fun d => classify_exec env d) ++
  optRule cfg.build_bin_dir (fun d => classify_built_exec env d) ++
  optRule cfg.build_mo_dir (fun d => classify_built_i18n d cfg.build_bin_dir) ++
  optRule cfg.build_dir (fun d => classify_build d) ++
  optRule cfg.po_dir (fun d => classify_po d cfg.base_dir) ++
  optRule cfg.src_dir (fun d => classify_src d cfg.base_dir) ++
  (match cfg.base_dir with
   | some b => [classify_legal b, classify_docs b, classify_manage_py b, classify_vcs b]
   | none => []) ++
  [classify_unknown cfg.base_dir]

/-- The `for` loop of `classify`: the first rule producing a result wins. -/
def firstMatch (fns : List (String → Option ClassifyResult)) (f : String) :
    Option ClassifyResult :=
  match fns with
  | [] => none
  | fn :: rest =>
    match fn f with
    | some r => some r
    | none => firstMatch rest f

/-- Model of `ProviderContentClassifier.classify`: try every rule in order;
`none` models the `ValueError` raised when no rule matches. -/
def classify (cfg : ProviderDirs) (env : FsEnv) (f : String) : Option ClassifyResult :=
  firstMatch (get_classify_fn_list cfg env) f

end ProviderContentClassifier

/-!
The unit model and the loader plug-ins.  A unit is a field dictionary plus
an origin, a virtual flag and its kind tag; the values of the dictionary
mirror the heterogeneous Python dict (strings, `FileRole` symbols, `None`).
-/

/-- A provenance tag: source file name and an optional line span
(`plainbox.impl.secure.origin.Origin` with a `FileTextSource`; absent
bounds describe the whole file). -/
structure ModelOrigin where
  source : String
  line_start : Option Nat
  line_end : Option Nat
deriving DecidableEq, Repr

/-- A value in a unit definition dictionary. -/
inductive FieldVal where
  | str (s : String)
  | role (r : FileRole)
  | pyNone
deriving DecidableEq, Repr

/-- Generic association-list lookup with string keys. -/
def lookupS {α : Type} (k : String) : List (String × α) → Option α
  | [] => none
  | (x, v) :: r => if x = k then some v else lookupS k r

/-- A loaded or synthesized unit: kind tag, field dictionary, origin,
virtual flag, and whether its kind declares `id` / `path` fields (the
`hasattr(unit.Meta.fields, ...)` probes of the aggregator). -/
structure ModelUnit where
  kind : String
  data : List (String × FieldVal)
  origin : ModelOrigin
  virtual : Bool
  hasIdField : Bool
  hasPathField : Bool
deriving DecidableEq, Repr

/-- The `id` field value of a unit (empty when absent). -/
def unitId (u : ModelUnit) : String :=
  match lookupS "id" u.data with
  | some (.str s) => s
  | _ => ""

/-- The `path` field value of a unit (empty when absent). -/
def unitPath (u : ModelUnit) : String :=
  match lookupS "path" u.data with
  | some (.str s) => s
  | _ => ""

/-- Modelled from the spec: a parsed selection list
(`plainbox.impl.secure.qualifiers.WhiteList`, not among the source files):
its name, the raw text it was built from, and its origin. -/
structure WhiteList where
  name : String
  text : String
  origin : ModelOrigin
deriving DecidableEq, Repr

namespace WhiteListPlugIn

/-- The file-provenance unit the legacy whitelist loader synthesizes:
a virtual `FileUnit` with role `legacy_whitelist` and a whole-file
origin. -/
def make_file_unit (filename : String) : ModelUnit :=
  { kind := "file",
    data := [("unit", .str "file"), ("path", .str filename),
             ("role", .role .legacy_whitelist)],
    origin := { source := filename, line_start := none, line_end := none },
    virtual := true,
    hasIdField := false, hasPathField := true }

/-- The test plan unit the legacy whitelist loader synthesizes: id and
name are the basename of the file without its extension, the `include`
field is the raw text, the origin spans the whole file. -/
def make_test_plan_unit (filename text : String) : ModelUnit :=
  let name := pyBasename (splitextRoot filename)
  { kind := "test plan",
    data := [("unit", .str "test plan"), ("id", .str name),
             ("name", .str name), ("include", .str text)],
    origin := { source := filename, line_start := some 1,
                line_end := some (text.data.count '\n') },
    virtual := true,
    hasIdField := true, hasPathField := false }

/-- Model of `WhiteListPlugIn.synthetize_virtual_units`: the two units added for a
loaded whitelist file. -/
def synthetize_virtual_units (filename text : String) : List ModelUnit :=
  [make_file_unit filename, make_test_plan_unit filename text]

end WhiteListPlugIn

namespace UnitPlugIn

/-- Model of `UnitPlugIn._make_file_unit`.  Modelled from the spec for the
constructor default: the `Unit` initializer (module `plainbox.impl.unit`,
not among the source files) takes a keyword `virtual` flag that defaults
to false, so a unit is virtual only when a loader passes `virtual=True`;
this call site passes no `virtual` argument. -/
def make_file_unit (filename : String) : ModelUnit :=
  { kind := "file",
    data := [("unit", .str "file"), ("path", .str filename),
             ("role", .role .unit_source)],
    origin := { source := filename, line_start := none, line_end := none },
    virtual := false,
    hasIdField := false, hasPathField := true }

/-- Model of `UnitPlugIn.synthetize_virtual_units`: only the file-provenance unit
is added after a successful unit-source load. -/
def synthetize_virtual_units (filename : String) : List ModelUnit :=
  [make_file_unit filename]

end UnitPlugIn

namespace ProviderContentPlugIn

/-- Model of `ProviderContentPlugIn.make_file_unit` once role and base are known
(when either is absent the caller classifies the file first): a virtual
`FileUnit` carrying path, base and role, with a whole-file origin. -/
def make_file_unit (role : FileRole) (base : Option String) (filename : String) :
    ModelUnit :=
  { kind := "file",
    data := [("unit", .str "file"), ("path", .str filename),
             ("base", match base with | some b => .str b | none => .pyNone),
             ("role", .role role)],
    origin := { source := filename, line_start := none, line_end := none },
    virtual := true,
    hasIdField := false, hasPathField := true }

end ProviderContentPlugIn

namespace WhiteListPlugIn2

/-- The provider attributes `WhiteListPlugIn2` consults. -/
structure ProviderInfo where
  whitelists_dir : Option String
deriving DecidableEq, Repr

/-- Modelled from the spec: `WhiteListPlugIn2.inspect` parses the whole
text as one selection list (`WhiteList.from_string`, not among the source
files) named after the file, with an origin spanning the whole file. -/
def inspect (filename text : String) : WhiteList :=
  { name := pyBasename (splitextRoot filename),
    text := text,
    origin := { source := filename, line_start := some 1,
                line_end := some (text.data.count '\n') } }

/-- Model of `WhiteListPlugIn2.make_test_plan_unit` (same construction as the
legacy loader). -/
def make_test_plan_unit (filename text : String) : ModelUnit :=
  WhiteListPlugIn.make_test_plan_unit filename text

/-- Model of `WhiteListPlugIn2.discover_units`: nothing at all without a provider;
with a provider, the file-provenance unit (role and base passed
explicitly, no classification) and the synthesized test plan unit. -/
def discover_units (provider : Option ProviderInfo) (filename text : String) :
    List ModelUnit :=
  match provider with
  | none => []
  | some p =>
    [ProviderContentPlugIn.make_file_unit .legacy_whitelist p.whitelists_dir filename,
     make_test_plan_unit filename text]

/-- Model of `WhiteListPlugIn2.discover_whitelists`: the inspected selection list
itself, with or without a provider. -/
def discover_whitelists (inspect_result : WhiteList) : List WhiteList :=
  [inspect_result]

end WhiteListPlugIn2

/-- Severity of a check issue (`plainbox.impl.validation.Severity`). -/
inductive Severity where
  | error
  | warning
  | advice
deriving DecidableEq, Repr

/-- One issue reported by live unit checking. -/
structure Issue where
  severity : Severity
  text : String
deriving DecidableEq, Repr

/-- A validation failure (`plainbox.impl.validation.ValidationError`):
the offending field and the problem. -/
structure UnitValidationError where
  field : String
  problem : String
deriving DecidableEq, Repr

/-- The errors a loader can raise, all of which become `PlugInError`s
attributable to one file. -/
inductive LoadErr where
  | cannotLoad (filename : String) (e : rfc822.SyntaxErr)
  | unknownUnit (kind : String)
  | unitDef (record : rfc822.Rec) (msg : String)
  | checkIssue (text : String)
  | validation (field problem : String)
  | generic (filename msg : String)
deriving DecidableEq, Repr

/-- The contextual behaviour `UnitPlugIn2.inspect` depends on: the unit
kind registry (`all_units`), and the optional validate / check phases. -/
structure LoaderEnv where
  registry : List (String × (rfc822.Rec → Except String ModelUnit))
  validate : Bool
  validationResult : ModelUnit → Option UnitValidationError
  check : Bool
  checkResults : ModelUnit → List Issue

namespace UnitPlugIn2

/-- The live-check phase: with `check` enabled, the first error-severity
issue aborts the file. -/
def checkStep (env : LoaderEnv) (u : ModelUnit) : Except LoadErr ModelUnit :=
  if env.check then
    match (env.checkResults u).find? (fun i => i.severity = .error) with
    | some issue => .error (.checkIssue issue.text)
    | none => .ok u
  else .ok u

/-- The validation phase: with `validate` enabled, a `ValidationError`
becomes a per-file problem naming field and problem. -/
def validateStep (env : LoaderEnv) (u : ModelUnit) : Except LoadErr ModelUnit :=
  if env.validate then
    match env.validationResult u with
    | some e => .error (.validation e.field e.problem)
    | none => .ok u
  else .ok u

/-- Dispatch of one parsed record: the declared `unit` field (kind "job"
when absent) selects the constructor from the registry; an unregistered
kind is an unknown-unit-kind error; a constructor `ValueError` is a
unit-definition error naming the record; then checking and validation. -/
def dispatchRecord (env : LoaderEnv) (r : rfc822.Rec) : Except LoadErr ModelUnit :=
  let unit_name := (lookupS "unit" r).getD "job"
  match lookupS unit_name env.registry with
  | none => .error (.unknownUnit unit_name)
  | some ctor =>
    match ctor r with
    | .error msg => .error (.unitDef r msg)
    | .ok u =>
      match checkStep env u with
      | .error e => .error e
      | .ok u =>
        match validateStep env u with
        | .error e => .error e
        | .ok u => .ok u

/-- The record loop of `UnitPlugIn2.inspect`: units accumulate in order;
the first failing record aborts the file. -/
def dispatchAll (env : LoaderEnv) : List rfc822.Rec → Except LoadErr (List ModelUnit)
  | [] => .ok []
  | r :: rs =>
    match dispatchRecord env r with
    | .error e => .error e
    | .ok u => (dispatchAll env rs).map (fun us => u :: us)

/-- Model of `UnitPlugIn2.inspect`: parse the text into records (a syntax error
becomes a cannot-load error naming the file) and dispatch each record. -/
def inspect (env : LoaderEnv) (filename text : String) :
    Except LoadErr (List ModelUnit) :=
  match rfc822.load_rfc822_records text with
  | .error e => .error (.cannotLoad filename e)
  | .ok records => dispatchAll env records

/-- Model of `UnitPlugIn2.discover_units`: the inspected units followed by the
file-provenance unit, whose role and base come from classifying the file
(`none` models the `ValueError` a failed classification would raise). -/
def discover_units (cfg : ProviderDirs) (fsenv : FsEnv)
    (inspect_result : List ModelUnit) (filename : String) :
    Option (List ModelUnit) :=
  match ProviderContentClassifier.classify cfg fsenv filename with
  | none => none
  | some (role, base, _) =>
    some (inspect_result ++ [ProviderContentPlugIn.make_file_unit role base filename])

/-- Model of `UnitPlugIn2.discover_whitelists`: every test plan unit among the
inspected units yields a selection list built from its `include` field
and named after its identifier. -/
def discover_whitelists (inspect_result : List ModelUnit) : List WhiteList :=
  (inspect_result.filter (fun u => u.kind = "test plan")).map (fun u =>
    { name := unitId u,
      text := match lookupS "include" u.data with
              | some (.str s) => s
              | _ => "",
      origin := u.origin })

end UnitPlugIn2

/-!
The content aggregator (`ProviderContentLoader.load` / `_load_file`).
The concrete loader strategies are abstracted as a `PluginRunner`: the
per-file plug-in construction that either fails with a `PlugInError` or
yields the plug-in lists `unit_list` and `whitelist_list`.
-/

/-- What running a selected plug-in class on one file produces. -/
abbrev PluginRunner := LoaderCls → String → String → Except LoadErr (List ModelUnit × List WhiteList)

/-- The aggregator state (`ProviderContentLoader` attributes). -/
structure LoaderState where
  unit_list : List ModelUnit
  whitelist_list : List WhiteList
  problem_list : List LoadErr
  path_map : List (String × List ModelUnit)
  id_map : List (String × List ModelUnit)
  is_loaded : Bool
deriving Repr

/-- Append a unit under a key of a `defaultdict(list)` index. -/
def mapAppend (m : List (String × List ModelUnit)) (k : String) (u : ModelUnit) :
    List (String × List ModelUnit) :=
  match m with
  | [] => [(k, [u])]
  | (x, us) :: r => if x = k then (x, us ++ [u]) :: r else (x, us) :: mapAppend r k u

/-- Index one unit by identifier, when its kind declares an `id` field. -/
def indexUnitId (st : LoaderState) (u : ModelUnit) : LoaderState :=
  if u.hasIdField then { st with id_map := mapAppend st.id_map (unitId u) u } else st

/-- Index one unit by path, when its kind declares a `path` field. -/
def indexUnitPath (st : LoaderState) (u : ModelUnit) : LoaderState :=
  if u.hasPathField then { st with path_map := mapAppend st.path_map (unitPath u) u } else st

/-- Index one unit by identifier and by path, when its kind declares
those fields. -/
def indexUnit (st : LoaderState) (u : ModelUnit) : LoaderState :=
  indexUnitPath (indexUnitId st u) u

namespace ProviderContentLoader

/-- Model of `ProviderContentLoader._load_file`: classify the file (a failed
classification would raise, which `.error ()` models); skip it when no
loader strategy is selected; otherwise run the plug-in, turning a
`PlugInError` into one appended problem and a success into accumulated
units, whitelists and index entries. -/
def load_file (cfg : ProviderDirs) (fsenv : FsEnv) (plug : PluginRunner)
    (st : LoaderState) (filename text : String) : Except Unit LoaderState :=
  match ProviderContentClassifier.classify cfg fsenv filename with
  | none => .error ()
  | some (_role, _base, none) => .ok st
  | some (_role, _base, some cls) =>
    match plug cls filename text with
    | .error e => .ok { st with problem_list := st.problem_list ++ [e] }
    | .ok (us, ws) =>
      .ok (us.foldl indexUnit
        { st with unit_list := st.unit_list ++ us,
                  whitelist_list := st.whitelist_list ++ ws })

/-- The per-file loop of `load`. -/
def load_files (cfg : ProviderDirs) (fsenv : FsEnv) (plug : PluginRunner)
    (st : LoaderState) : List (String × String) → Except Unit LoaderState
  | [] => .ok st
  | (fn, tx) :: rest =>
    match load_file cfg fsenv plug st fn tx with
    | .error e => .error e
    | .ok st => load_files cfg fsenv plug st rest

/-- Model of `ProviderContentLoader.load`: load every enumerated file, then merge
the enumeration problem list and set the loaded flag. -/
def load (cfg : ProviderDirs) (fsenv : FsEnv) (plug : PluginRunner)
    (files : List (String × String)) (enumProblems : List LoadErr)
    (st : LoaderState) : Except Unit LoaderState :=
  (load_files cfg fsenv plug st files).map (fun st =>
    { st with problem_list := st.problem_list ++ enumProblems, is_loaded := true })

end ProviderContentLoader

/-!
Name resolution for `ProviderContentLoader.__init__`.  The module-level
namespace of `plainbox.impl.secure.providers.v1` is transcribed from
its imports and module-level definitions; Python raises `NameError`
when an evaluated global name is neither a module global nor a builtin.
-/

/-- The names bound by the import statements of
`plainbox.impl.secure.providers.v1`. -/
def v1ModuleImportedNames : List String :=
  ["abc", "errno", "gettext", "logging", "os",
   "IProvider1", "_", "Config", "Variable", "IValidator",
   "NotEmptyValidator", "NotUnsetValidator", "PatternValidator", "Unset",
   "Origin", "FsPlugInCollection", "IPlugIn", "PlugIn", "PlugInError",
   "now", "WhiteList", "FileTextSource", "load_rfc822_records",
   "RFC822SyntaxError", "all_units", "FileRole", "FileUnit",
   "TestPlanUnit", "Severity", "ValidationError"]

/-- The names defined at module level in the same file. -/
def v1ModuleLevelNames : List String :=
  ["logger", "IVirtualUnitSynthethizer", "WhiteListPlugIn", "UnitPlugIn",
   "ProviderContentPlugIn", "WhiteListPlugIn2", "UnitPlugIn2",
   "ProviderContentEnumerator", "ProviderContentClassifier",
   "ProviderContentLoader", "LazyFsPlugInCollection", "Provider1",
   "IQNValidator", "VersionValidator", "ExistingDirectoryValidator",
   "AbsolutePathValidator", "Provider1Definition", "Provider1PlugIn",
   "get_secure_PROVIDERPATH_list", "SecureProvider1PlugInCollection",
   "all_providers"]

/-- The Python builtin names (functions, types, constants and exceptions
of the `builtins` module relevant to name resolution). -/
def pythonBuiltinNames : List String :=
  ["abs", "aiter", "all", "anext", "any", "ascii", "bin", "bool",
   "breakpoint", "bytearray", "bytes", "callable", "chr", "classmethod",
   "compile", "complex", "copyright", "credits", "delattr", "dict", "dir",
   "divmod", "enumerate", "eval", "exec", "exit", "filter", "float",
   "format", "frozenset", "getattr", "globals", "hasattr", "hash", "help",
   "hex", "id", "input", "int", "isinstance", "issubclass", "iter", "len",
   "license", "list", "locals", "map", "max", "memoryview", "min", "next",
   "object", "oct", "open", "ord", "pow", "print", "property", "quit",
   "range", "repr", "reversed", "round", "set", "setattr", "slice",
   "sorted", "staticmethod", "str", "sum", "super", "tuple", "type",
   "vars", "zip", "True", "False", "None", "NotImplemented", "Ellipsis",
   "__import__", "__name__", "__doc__", "__build_class__", "__debug__",
   "ArithmeticError", "AssertionError", "AttributeError", "BaseException",
   "BlockingIOError", "BrokenPipeError", "BufferError", "BytesWarning",
   "ChildProcessError", "ConnectionAbortedError", "ConnectionError",
   "ConnectionRefusedError", "ConnectionResetError", "DeprecationWarning",
   "EOFError", "EnvironmentError", "Exception", "FileExistsError",
   "FileNotFoundError", "FloatingPointError", "FutureWarning",
   "GeneratorExit", "IOError", "ImportError", "ImportWarning",
   "IndentationError", "IndexError", "InterruptedError",
   "IsADirectoryError", "KeyError", "KeyboardInterrupt", "LookupError",
   "MemoryError", "ModuleNotFoundError", "NameError",
   "NotADirectoryError", "NotImplementedError", "OSError",
   "OverflowError", "PendingDeprecationWarning", "PermissionError",
   "ProcessLookupError", "RecursionError", "ReferenceError",
   "ResourceWarning", "RuntimeError", "RuntimeWarning", "StopAsyncIteration",
   "StopIteration", "SyntaxError", "SyntaxWarning", "SystemError",
   "SystemExit", "TabError", "TimeoutError", "TypeError",
   "UnboundLocalError", "UnicodeDecodeError", "UnicodeEncodeError",
   "UnicodeError", "UnicodeTranslateError", "UnicodeWarning",
   "UserWarning", "ValueError", "Warning", "ZeroDivisionError"]

/-- Whether a global name evaluated inside this module resolves
(module global or builtin). -/
def resolvesAtV1ModuleLevel (n : String) : Bool :=
  v1ModuleImportedNames.contains n || v1ModuleLevelNames.contains n
    || pythonBuiltinNames.contains n

/-- The global names the body of `ProviderContentLoader.__init__`
evaluates (besides its own parameters and attributes): only
`collections`, in the two `collections.defaultdict(list)` expressions. -/
def providerContentLoaderInitGlobalRefs : List String := ["collections"]

/-- Whether `ProviderContentLoader.__init__` raises `NameError`: it does
exactly when some global name it evaluates does not resolve. -/
def providerContentLoaderInitRaisesNameError : Bool :=
  providerContentLoaderInitGlobalRefs.any (fun n => !resolvesAtV1ModuleLevel n)

/-- A small concrete provider layout exercised by the claims: jobs,
units, whitelists and data directories nested under a base directory. -/
def cfgEx : ProviderDirs :=
  { jobs_dir := some "/p/jobs", units_dir := some "/p/units",
    whitelists_dir := some "/p/whitelists", data_dir := some "/p/data",
    bin_dir := none, build_bin_dir := none, build_mo_dir := none,
    build_dir := none, po_dir := none, src_dir := none,
    base_dir := some "/p" }

/-- A file-system probe environment with no executables. -/
def envEx : FsEnv :=
  { isExecutable := fun _ => false, hasShebang := fun _ => false,
    executables := [] }

/-- A trivial job constructor for the example registry: build a unit
from the record verbatim. -/
def ctorJob (r : rfc822.Rec) : Except String ModelUnit :=
  .ok { kind := "job", data := r.map (fun p => (p.1, FieldVal.str p.2)),
        origin := ⟨"", none, none⟩, virtual := false,
        hasIdField := true, hasPathField := false }

/-- An example loader context: only the kind `job` is registered,
validation and checking are off. -/
def loaderEnvEx : LoaderEnv :=
  { registry := [("job", ctorJob)], validate := false,
    validationResult := fun _ => none, check := false,
    checkResults := fun _ => [] }

/-!
Spec-side description of what one full `load` pass accumulates: the
outcome of each file (skipped, failed, or loaded) and the concatenation
of all outcomes.
-/

/-- What `_load_file` will do with one file: `none` when no loader
strategy is selected (or classification would fail), otherwise the
plug-in run outcome. -/
def fileLoadOutcome (cfg : ProviderDirs) (fsenv : FsEnv) (plug : PluginRunner)
    (fn tx : String) : Option (Except LoadErr (List ModelUnit × List WhiteList)) :=
  match ProviderContentClassifier.classify cfg fsenv fn with
  | none => none
  | some (_, _, none) => none
  | some (_, _, some cls) => some (plug cls fn tx)

/-- The units one file contributes. -/
def outcomeUnits : Option (Except LoadErr (List ModelUnit × List WhiteList)) → List ModelUnit
  | some (.ok (us, _)) => us
  | _ => []

/-- The whitelists one file contributes. -/
def outcomeWhitelists : Option (Except LoadErr (List ModelUnit × List WhiteList)) → List WhiteList
  | some (.ok (_, ws)) => ws
  | _ => []

/-- The problem entries one file contributes: exactly one per failing
file, none otherwise. -/
def outcomeProblems : Option (Except LoadErr (List ModelUnit × List WhiteList)) → List LoadErr
  | some (.error e) => [e]
  | _ => []

/-- All units of a load pass, in file order. -/
def filesUnits (cfg : ProviderDirs) (fsenv : FsEnv) (plug : PluginRunner)
    (files : List (String × String)) : List ModelUnit :=
  files.flatMap (fun p => outcomeUnits (fileLoadOutcome cfg fsenv plug p.1 p.2))

/-- All whitelists of a load pass, in file order. -/
def filesWhitelists (cfg : ProviderDirs) (fsenv : FsEnv) (plug : PluginRunner)
    (files : List (String × String)) : List WhiteList :=
  files.flatMap (fun p => outcomeWhitelists (fileLoadOutcome cfg fsenv plug p.1 p.2))

/-- All per-file problems of a load pass, in file order. -/
def filesProblems (cfg : ProviderDirs) (fsenv : FsEnv) (plug : PluginRunner)
    (files : List (String × String)) : List LoadErr :=
  files.flatMap (fun p => outcomeProblems (fileLoadOutcome cfg fsenv plug p.1 p.2))

/-- The empty aggregator state (a fresh `ProviderContentLoader`). -/
def stEmpty : LoaderState := ⟨[], [], [], [], [], false⟩

/-- The concrete plug-in runner for the example provider: `UnitPlugIn2`
runs its inspect / discover phases against the example registry and
classifier, `WhiteListPlugIn2` runs its inspect / discover phases with
the example provider supplied. -/
def plugEx : PluginRunner := fun cls fn tx =>
  match cls with
  | .UnitPlugIn2 =>
    match UnitPlugIn2.inspect loaderEnvEx fn tx with
    | .error e => .error e
    | .ok us =>
      match UnitPlugIn2.discover_units cfgEx envEx us fn with
      | none => .error (.generic fn "unclassifiable")
      | some units => .ok (units, UnitPlugIn2.discover_whitelists us)
  | .WhiteListPlugIn2 =>
    .ok (WhiteListPlugIn2.discover_units (some ⟨cfgEx.whitelists_dir⟩) fn tx,
         WhiteListPlugIn2.discover_whitelists (WhiteListPlugIn2.inspect fn tx))
  | .ProviderContentPlugIn => .ok ([], [])

namespace rfc822

/-- A value line survives writer escaping followed by parser
decoding: it is not whitespace-only unless empty, and if its stripped
form is a run of periods then it carries no surrounding whitespace. -/
def wfLineB (l : List Char) : Bool :=
  (l.isEmpty || !(stripChars l).isEmpty)
    && (!allDots (stripChars l) || l == stripChars l)

/-- A field value survives the round trip: a single-line value is its
own stripped form (the parser strips the inline value of a `key:` line), and every
line of a multi-line value satisfies `wfLineB`. -/
def wfValB (v : List Char) : Bool :=
  if '\n' ∈ v then (splitNl v).all wfLineB else stripChars v == v

/-- A key survives the round trip: stripped, non-empty, and free of
colons and newlines. -/
def wfKeyB (k : List Char) : Bool :=
  stripChars k == k && !k.isEmpty && decide (':' ∉ k) && decide ('\n' ∉ k)

/-- Keys are pairwise distinct (a repeated key is a duplicate-key parse
error). -/
def nodupKeysB : List (List Char × List Char) → Bool
  | [] => true
  | (k, _) :: r => (lookupStr k r).isNone && nodupKeysB r

/-- A record the writer-then-parser round trip preserves: non-empty,
with pairwise distinct well-formed keys and well-formed values. -/
def wellFormed (r : Rec) : Bool :=
  !r.isEmpty
    && nodupKeysB (r.map fun p => (p.1.data, p.2.data))
    && (r.map fun p => (p.1.data, p.2.data)).all (fun p => wfKeyB p.1 && wfValB p.2)

/-- The claim-side precondition, following the words of the claim: a field
value is free of embedded record-terminating blank-line sequences when
none of its lines is blank (empty or whitespace-only). -/
def valueFreeOfBlankLineSeq (v : String) : Bool :=
  (splitNl v.data).all (fun l => !(stripChars l).isEmpty)

end rfc822


/-!
Lemmas about the classifier rule chain.
-/

namespace ProviderContentClassifier

theorem firstMatch_cons_some {fn : String → Option ClassifyResult}
    {fns : List (String → Option ClassifyResult)} {f : String} {r : ClassifyResult}
    (h : fn f = some r) : firstMatch (fn :: fns) f = some r := by
  simp [firstMatch, h]

theorem firstMatch_cons_none {fn : String → Option ClassifyResult}
    {fns : List (String → Option ClassifyResult)} {f : String}
    (h : fn f = none) : firstMatch (fn :: fns) f = firstMatch fns f := by
  simp [firstMatch, h]

theorem firstMatch_suffix_total (l1 l2 : List (String → Option ClassifyResult))
    (f : String) (h : ∃ r, firstMatch l2 f = some r) :
    ∃ r, firstMatch (l1 ++ l2) f = some r := by
  induction l1 with
  | nil => simpa using h
  | cons fn rest ih =>
    rcases hf : fn f with _ | r
    · simpa [firstMatch, hf] using ih
    · exact ⟨r, by simp [firstMatch, hf]⟩

theorem firstMatch_some_mem {l : List (String → Option ClassifyResult)}
    {f : String} {r : ClassifyResult} (h : firstMatch l f = some r) :
    ∃ g ∈ l, g f = some r := by
  induction l with
  | nil => simp [firstMatch] at h
  | cons fn rest ih =>
    rcases hf : fn f with _ | r2
    · rw [firstMatch_cons_none hf] at h
      obtain ⟨g, hg, hgf⟩ := ih h
      exact ⟨g, List.mem_cons_of_mem _ hg, hgf⟩
    · rw [firstMatch_cons_some hf] at h
      exact ⟨fn, List.mem_cons_self _ _, by rw [hf, h]⟩

theorem firstMatch_some_first_index {l : List (String → Option ClassifyResult)}
    {f : String} {r : ClassifyResult} (h : firstMatch l f = some r) :
    ∃ i, ∃ hi : i < l.length, (l.get ⟨i, hi⟩) f = some r ∧
      ∀ j, ∀ hj : j < l.length, j < i → (l.get ⟨j, hj⟩) f = none := by
  induction l with
  | nil => simp [firstMatch] at h
  | cons fn rest ih =>
    rcases hf : fn f with _ | r2
    · rw [firstMatch_cons_none hf] at h
      obtain ⟨i, hi, hget, hbefore⟩ := ih h
      refine ⟨i + 1, by simpa using Nat.succ_lt_succ hi, by simpa using hget, ?_⟩
      intro j hj hlt
      cases j with
      | zero => simpa using hf
      | succ j =>
        have hj2 : j < rest.length := by simpa using Nat.lt_of_succ_lt_succ hj
        simpa using hbefore j hj2 (Nat.lt_of_succ_lt_succ hlt)
    · rw [firstMatch_cons_some hf] at h
      refine ⟨0, by simp, by simpa [hf] using h, ?_⟩
      intro j hj hlt
      exact absurd hlt (Nat.not_lt_zero j)

theorem mem_optRule {α : Type} {o : Option String} {h : String → α} {g : α}
    (hm : g ∈ optRule o h) : ∃ d, o = some d ∧ g = h d := by
  cases o with
  | none => simp [optRule] at hm
  | some d =>
    simp only [optRule, List.mem_singleton] at hm
    exact ⟨d, rfl, hm⟩

/-- Inventory of the rule chain: every rule in the list is one of the
transcribed rules, applied to the corresponding declared directory. -/
theorem mem_classify_fn_list {cfg : ProviderDirs} {env : FsEnv}
    {g : String → Option ClassifyResult} (h : g ∈ get_classify_fn_list cfg env) :
    (∃ d, cfg.jobs_dir = some d ∧ g = classify_pxu_jobs d) ∨
    (∃ d, cfg.units_dir = some d ∧ g = classify_pxu_units d) ∨
    (∃ d, cfg.whitelists_dir = some d ∧ g = classify_whitelist d) ∨
    (∃ d, cfg.data_dir = some d ∧ g = classify_data d) ∨
    (∃ d, cfg.bin_dir = some d ∧ g = classify_exec env d) ∨
    (∃ d, cfg.build_bin_dir = some d ∧ g = classify_built_exec env d) ∨
    (∃ d, cfg.build_mo_dir = some d ∧ g = classify_built_i18n d cfg.build_bin_dir) ∨
    (∃ d, cfg.build_dir = some d ∧ g = classify_build d) ∨
    (∃ d, cfg.po_dir = some d ∧ g = classify_po d cfg.base_dir) ∨
    (∃ d, cfg.src_dir = some d ∧ g = classify_src d cfg.base_dir) ∨
    (∃ b, cfg.base_dir = some b ∧
      (g = classify_legal b ∨ g = classify_docs b ∨ g = classify_manage_py b ∨
       g = classify_vcs b)) ∨
    g = classify_unknown cfg.base_dir := by
  unfold get_classify_fn_list at h
  simp only [List.mem_append, List.mem_singleton] at h
  rcases h with ((((((((((h | h) | h) | h) | h) | h) | h) | h) | h) | h) | h) | h
  · exact Or.inl (mem_optRule h)
  · exact Or.inr (Or.inl (mem_optRule h))
  · exact Or.inr (Or.inr (Or.inl (mem_optRule h)))
  · exact Or.inr (Or.inr (Or.inr (Or.inl (mem_optRule h))))
  · exact Or.inr (Or.inr (Or.inr (Or.inr (Or.inl (mem_optRule h)))))
  · exact Or.inr (Or.inr (Or.inr (Or.inr (Or.inr (Or.inl (mem_optRule h))))))
  · exact Or.inr (Or.inr (Or.inr (Or.inr (Or.inr (Or.inr (Or.inl (mem_optRule h)))))))
  · exact Or.inr (Or.inr (Or.inr (Or.inr (Or.inr (Or.inr (Or.inr (Or.inl (mem_optRule h))))))))
  · exact Or.inr (Or.inr (Or.inr (Or.inr (Or.inr (Or.inr (Or.inr (Or.inr (Or.inl
      (mem_optRule h)))))))))
  · exact Or.inr (Or.inr (Or.inr (Or.inr (Or.inr (Or.inr (Or.inr (Or.inr (Or.inr (Or.inl
      (mem_optRule h))))))))))
  · cases hb : cfg.base_dir with
    | none => rw [hb] at h; simp at h
    | some b =>
      rw [hb] at h
      simp only [List.mem_cons, List.not_mem_nil, or_false] at h
      refine Or.inr (Or.inr (Or.inr (Or.inr (Or.inr (Or.inr (Or.inr (Or.inr (Or.inr (Or.inr
        (Or.inl ⟨b, rfl, ?_⟩))))))))))
      rcases h with h | h | h | h
      · exact Or.inl h
      · exact Or.inr (Or.inl h)
      · exact Or.inr (Or.inr (Or.inl h))
      · exact Or.inr (Or.inr (Or.inr h))
  · exact Or.inr (Or.inr (Or.inr (Or.inr (Or.inr (Or.inr (Or.inr (Or.inr (Or.inr (Or.inr
      (Or.inr h))))))))))

/-- The classifier never fails: the catch-all rule is last and total. -/
theorem classify_total (cfg : ProviderDirs) (env : FsEnv) (f : String) :
    ∃ r, classify cfg env f = some r := by
  unfold classify get_classify_fn_list
  repeat
    first
    | exact ⟨(.unknown, cfg.base_dir, none), rfl⟩
    | apply firstMatch_suffix_total

theorem classify_pxu_jobs_inv {d f : String} {r : ClassifyResult}
    (h : classify_pxu_jobs d f = some r) :
    pyStartsWith f d = true ∧ splitextExt f ∈ ([".txt", ".in", ".pxu"] : List String) ∧
      r = (.unit_source, some d, some .UnitPlugIn2) := by
  unfold classify_pxu_jobs at h
  split at h
  · split at h
    · exact ⟨by assumption, by assumption, by injection h with h; exact h.symm⟩
    · exact absurd h (by simp)
  · exact absurd h (by simp)

theorem classify_pxu_units_inv {d f : String} {r : ClassifyResult}
    (h : classify_pxu_units d f = some r) :
    pyStartsWith f d = true ∧ splitextExt f ∈ ([".txt", ".txt.in", ".pxu"] : List String) ∧
      r = (.unit_source, some d, some .UnitPlugIn2) := by
  unfold classify_pxu_units at h
  split at h
  · split at h
    · exact ⟨by assumption, by assumption, by injection h with h; exact h.symm⟩
    · exact absurd h (by simp)
  · exact absurd h (by simp)

theorem classify_whitelist_inv {d f : String} {r : ClassifyResult}
    (h : classify_whitelist d f = some r) :
    pyStartsWith f d = true ∧ pyEndsWith f ".whitelist" = true ∧
      r = (.legacy_whitelist, some d, some .WhiteListPlugIn2) := by
  unfold classify_whitelist at h
  split at h
  · next hc =>
    rw [Bool.and_eq_true] at hc
    exact ⟨hc.1, hc.2, by injection h with h; exact h.symm⟩
  · exact absurd h (by simp)

theorem classify_data_role {d f : String} {r : ClassifyResult}
    (h : classify_data d f = some r) : r.1 = .data := by
  unfold classify_data at h
  split at h
  · injection h with h; rw [← h]
  · exact absurd h (by simp)

theorem classify_exec_role {env : FsEnv} {d f : String} {r : ClassifyResult}
    (h : classify_exec env d f = some r) : r.1 = .script ∨ r.1 = .binary := by
  unfold classify_exec at h
  split at h
  · injection h with h
    rw [← h]
    cases env.hasShebang f <;> simp
  · exact absurd h (by simp)

theorem classify_built_exec_role {env : FsEnv} {d f : String} {r : ClassifyResult}
    (h : classify_built_exec env d f = some r) : r.1 = .script ∨ r.1 = .binary := by
  unfold classify_built_exec at h
  split at h
  · injection h with h
    rw [← h]
    cases env.hasShebang f <;> simp
  · exact absurd h (by simp)

theorem classify_built_i18n_role {d f : String} {b : Option String} {r : ClassifyResult}
    (h : classify_built_i18n d b f = some r) : r.1 = .i18n := by
  unfold classify_built_i18n at h
  split at h
  · injection h with h; rw [← h]
  · exact absurd h (by simp)

theorem classify_build_role {d f : String} {r : ClassifyResult}
    (h : classify_build d f = some r) : r.1 = .build := by
  unfold classify_build at h
  split at h
  · injection h with h; rw [← h]
  · exact absurd h (by simp)

theorem classify_legal_role {b f : String} {r : ClassifyResult}
    (h : classify_legal b f = some r) : r.1 = .legal := by
  unfold classify_legal at h
  split at h
  · injection h with h; rw [← h]
  · exact absurd h (by simp)

theorem classify_docs_role {b f : String} {r : ClassifyResult}
    (h : classify_docs b f = some r) : r.1 = .docs := by
  unfold classify_docs at h
  split at h
  · injection h with h; rw [← h]
  · exact absurd h (by simp)

theorem classify_manage_py_role {b f : String} {r : ClassifyResult}
    (h : classify_manage_py b f = some r) : r.1 = .manage_py := by
  unfold classify_manage_py at h
  split at h
  · injection h with h; rw [← h]
  · exact absurd h (by simp)

theorem classify_po_role {d f : String} {b : Option String} {r : ClassifyResult}
    (h : classify_po d b f = some r) : r.1 = .src := by
  unfold classify_po at h
  split at h
  · injection h with h; rw [← h]
  · exact absurd h (by simp)

theorem classify_src_role {d f : String} {b : Option String} {r : ClassifyResult}
    (h : classify_src d b f = some r) : r.1 = .src := by
  unfold classify_src at h
  split at h
  · injection h with h; rw [← h]
  · exact absurd h (by simp)

theorem vcsWalk_role {b : String} {n : Nat} {f : String} {r : ClassifyResult}
    (h : vcsWalk b n f = some r) : r.1 = .vcs := by
  induction n generalizing f with
  | zero => simp [vcsWalk] at h
  | succ n ih =>
    unfold vcsWalk at h
    split at h
    · exact absurd h (by simp)
    · split at h
      · injection h with h; rw [← h]
      · exact ih h

theorem classify_vcs_role {b f : String} {r : ClassifyResult}
    (h : classify_vcs b f = some r) : r.1 = .vcs := by
  unfold classify_vcs at h
  split at h
  · injection h with h; rw [← h]
  · exact vcsWalk_role h

theorem classify_unknown_role {b : Option String} {f : String} {r : ClassifyResult}
    (h : classify_unknown b f = some r) : r.1 = .unknown := by
  unfold classify_unknown at h
  injection h with h; rw [← h]

/-- Only the jobs and units rules ever produce the `unit_source` role. -/
theorem classify_unit_source_origin {cfg : ProviderDirs} {env : FsEnv} {f : String}
    {r : ClassifyResult} (h : classify cfg env f = some r) (hrole : r.1 = .unit_source) :
    (∃ d, cfg.jobs_dir = some d ∧ classify_pxu_jobs d f = some r) ∨
    (∃ d, cfg.units_dir = some d ∧ classify_pxu_units d f = some r) := by
  obtain ⟨g, hmem, hgf⟩ := firstMatch_some_mem h
  rcases mem_classify_fn_list hmem with
    ⟨d, hd, rfl⟩ | ⟨d, hd, rfl⟩ | ⟨d, hd, rfl⟩ | ⟨d, hd, rfl⟩ | ⟨d, hd, rfl⟩ | ⟨d, hd, rfl⟩ |
    ⟨d, hd, rfl⟩ | ⟨d, hd, rfl⟩ | ⟨d, hd, rfl⟩ | ⟨d, hd, rfl⟩ |
    ⟨b, hb, (rfl | rfl | rfl | rfl)⟩ | rfl
  · exact Or.inl ⟨d, hd, hgf⟩
  · exact Or.inr ⟨d, hd, hgf⟩
  · rw [(classify_whitelist_inv hgf).2.2] at hrole; exact absurd hrole (by simp)
  · rw [classify_data_role hgf] at hrole; exact absurd hrole (by simp)
  · rcases classify_exec_role hgf with hr | hr <;> (rw [hr] at hrole; exact absurd hrole (by simp))
  · rcases classify_built_exec_role hgf with hr | hr <;>
      (rw [hr] at hrole; exact absurd hrole (by simp))
  · rw [classify_built_i18n_role hgf] at hrole; exact absurd hrole (by simp)
  · rw [classify_build_role hgf] at hrole; exact absurd hrole (by simp)
  · rw [classify_po_role hgf] at hrole; exact absurd hrole (by simp)
  · rw [classify_src_role hgf] at hrole; exact absurd hrole (by simp)
  · rw [classify_legal_role hgf] at hrole; exact absurd hrole (by simp)
  · rw [classify_docs_role hgf] at hrole; exact absurd hrole (by simp)
  · rw [classify_manage_py_role hgf] at hrole; exact absurd hrole (by simp)
  · rw [classify_vcs_role hgf] at hrole; exact absurd hrole (by simp)
  · rw [classify_unknown_role hgf] at hrole; exact absurd hrole (by simp)

/-- Only the whitelist rule ever produces the `legacy_whitelist` role. -/
theorem classify_legacy_whitelist_origin {cfg : ProviderDirs} {env : FsEnv} {f : String}
    {r : ClassifyResult} (h : classify cfg env f = some r)
    (hrole : r.1 = .legacy_whitelist) :
    ∃ d, cfg.whitelists_dir = some d ∧ classify_whitelist d f = some r := by
  obtain ⟨g, hmem, hgf⟩ := firstMatch_some_mem h
  rcases mem_classify_fn_list hmem with
    ⟨d, hd, rfl⟩ | ⟨d, hd, rfl⟩ | ⟨d, hd, rfl⟩ | ⟨d, hd, rfl⟩ | ⟨d, hd, rfl⟩ | ⟨d, hd, rfl⟩ |
    ⟨d, hd, rfl⟩ | ⟨d, hd, rfl⟩ | ⟨d, hd, rfl⟩ | ⟨d, hd, rfl⟩ |
    ⟨b, hb, (rfl | rfl | rfl | rfl)⟩ | rfl
  · rw [(classify_pxu_jobs_inv hgf).2.2] at hrole; exact absurd hrole (by simp)
  · rw [(classify_pxu_units_inv hgf).2.2] at hrole; exact absurd hrole (by simp)
  · exact ⟨d, hd, hgf⟩
  · rw [classify_data_role hgf] at hrole; exact absurd hrole (by simp)
  · rcases classify_exec_role hgf with hr | hr <;> (rw [hr] at hrole; exact absurd hrole (by simp))
  · rcases classify_built_exec_role hgf with hr | hr <;>
      (rw [hr] at hrole; exact absurd hrole (by simp))
  · rw [classify_built_i18n_role hgf] at hrole; exact absurd hrole (by simp)
  · rw [classify_build_role hgf] at hrole; exact absurd hrole (by simp)
  · rw [classify_po_role hgf] at hrole; exact absurd hrole (by simp)
  · rw [classify_src_role hgf] at hrole; exact absurd hrole (by simp)
  · rw [classify_legal_role hgf] at hrole; exact absurd hrole (by simp)
  · rw [classify_docs_role hgf] at hrole; exact absurd hrole (by simp)
  · rw [classify_manage_py_role hgf] at hrole; exact absurd hrole (by simp)
  · rw [classify_vcs_role hgf] at hrole; exact absurd hrole (by simp)
  · rw [classify_unknown_role hgf] at hrole; exact absurd hrole (by simp)

/-- When the jobs directory is declared, its rule is the first of the
chain, so a match of the jobs rule decides the classification. -/
theorem classify_jobs_rule_first {cfg : ProviderDirs} {env : FsEnv} {jd f : String}
    {r : ClassifyResult} (hj : cfg.jobs_dir = some jd)
    (h : classify_pxu_jobs jd f = some r) : classify cfg env f = some r := by
  unfold classify get_classify_fn_list
  rw [hj]
  exact firstMatch_cons_some h

/-- With no jobs directory, the units rule is first. -/
theorem classify_units_rule_first {cfg : ProviderDirs} {env : FsEnv} {ud f : String}
    {r : ClassifyResult} (hj : cfg.jobs_dir = none) (hu : cfg.units_dir = some ud)
    (h : classify_pxu_units ud f = some r) : classify cfg env f = some r := by
  unfold classify get_classify_fn_list
  rw [hj, hu]
  exact firstMatch_cons_some h

/-- With neither jobs nor units directory, the whitelist rule is first. -/
theorem classify_whitelist_rule_first {cfg : ProviderDirs} {env : FsEnv} {wd f : String}
    {r : ClassifyResult} (hj : cfg.jobs_dir = none) (hu : cfg.units_dir = none)
    (hw : cfg.whitelists_dir = some wd)
    (h : classify_whitelist wd f = some r) : classify cfg env f = some r := by
  unfold classify get_classify_fn_list
  rw [hj, hu, hw]
  exact firstMatch_cons_some h

end ProviderContentClassifier

/-- An extension computed by `splitextExt` has no dot after its leading
dot (so `os.path.splitext` can never report the extension `.txt.in`). -/
theorem afterLastDot_eq_none {l : List Char} (h : afterLastDot l = none) : '.' ∉ l := by
  induction l with
  | nil => simp
  | cons c cs ih =>
    intro hmem
    unfold afterLastDot at h
    rcases ha : afterLastDot cs with _ | e
    · rw [ha] at h
      simp only at h
      split at h
      · exact absurd h (by simp)
      · rcases List.mem_cons.mp hmem with rfl | hmem2
        · simp_all
        · exact ih ha hmem2
    · rw [ha] at h; simp at h

theorem afterLastDot_no_dot {l e : List Char} (h : afterLastDot l = some e) : '.' ∉ e := by
  induction l with
  | nil => simp [afterLastDot] at h
  | cons c cs ih =>
    unfold afterLastDot at h
    rcases ha : afterLastDot cs with _ | e2
    · rw [ha] at h
      simp only at h
      split at h
      · injection h with h
        rw [← h]
        exact afterLastDot_eq_none ha
      · exact absurd h (by simp)
    · rw [ha] at h
      injection h with h
      subst h
      exact ih ha

theorem splitextExt_ne_txt_in (f : String) : splitextExt f ≠ ".txt.in" := by
  unfold splitextExt
  rcases ha : extCandidate f with _ | e
  · intro h
    have := congrArg String.data h
    simp at this
  · intro h
    have hd : ('.' :: e) = ".txt.in".data := congrArg String.data h
    have hnd := afterLastDot_no_dot ha
    have he : e = ['t', 'x', 't', '.', 'i', 'n'] := by
      have h2 : ('.' :: e) = ['.', 't', 'x', 't', '.', 'i', 'n'] := hd
      exact List.tail_eq_of_cons_eq h2
    rw [he] at hnd
    simp at hnd


open ProviderContentClassifier in
/-- Claim C2: `classify` evaluates its rule list in a fixed precedence
order and returns the result of the first matching rule; a path inside a
declared specific directory whose rule matches is decided by that rule
before any root-level rule is consulted; the catch-all unknown-file rule
is appended last and always matches, so `classify` never raises
`ValueError` (which could only happen if no rule at all produced a
result). -/
theorem claim_C2_classify_first_match_precedence :
    (∀ cfg env f, ∃ r, classify cfg env f = some r) ∧
    (∀ cfg env f r, classify cfg env f = some r →
      ∃ i, ∃ hi : i < (get_classify_fn_list cfg env).length,
        ((get_classify_fn_list cfg env).get ⟨i, hi⟩) f = some r ∧
        ∀ j, ∀ hj : j < (get_classify_fn_list cfg env).length, j < i →
          ((get_classify_fn_list cfg env).get ⟨j, hj⟩) f = none) ∧
    (∀ cfg env jd f r, cfg.jobs_dir = some jd → classify_pxu_jobs jd f = some r →
      classify cfg env f = some r) ∧
    (∀ cfg env, ∃ front, get_classify_fn_list cfg env =
      front ++ [classify_unknown cfg.base_dir]) ∧
    (∀ b f, classify_unknown b f = some (.unknown, b, none)) ∧
    classify cfgEx envEx "/p/jobs/.git/x.pxu"
      = some (.unit_source, some "/p/jobs", some .UnitPlugIn2) ∧
    classify cfgEx envEx "/p/jobs/COPYING"
      = some (.legal, some "/p", some .ProviderContentPlugIn) := by
  refine ⟨classify_total, fun cfg env f r h => firstMatch_some_first_index h,
    fun cfg env jd f r hj h => classify_jobs_rule_first hj h, ?_, fun b f => rfl,
    by decide, by decide⟩
  intro cfg env
  exact ⟨optRule cfg.jobs_dir (fun d => classify_pxu_jobs d) ++
    optRule cfg.units_dir (fun d => classify_pxu_units d) ++
    optRule cfg.whitelists_dir (fun d => classify_whitelist d) ++
    optRule cfg.data_dir (fun d => classify_data d) ++
    optRule cfg.bin_dir (fun d => classify_exec env d) ++
    optRule cfg.build_bin_dir (fun d => classify_built_exec env d) ++
    optRule cfg.build_mo_dir (fun d => classify_built_i18n d cfg.build_bin_dir) ++
    optRule cfg.build_dir (fun d => classify_build d) ++
    optRule cfg.po_dir (fun d => classify_po d cfg.base_dir) ++
    optRule cfg.src_dir (fun d => classify_src d cfg.base_dir) ++
    (match cfg.base_dir with
     | some b => [classify_legal b, classify_docs b, classify_manage_py b, classify_vcs b]
     | none => []),
    by simp [get_classify_fn_list, List.append_assoc]⟩

open ProviderContentClassifier in
/-- Claim C6 (counterexample): the declared extension set is not what
`classify` implements.  The file `/p/units/a.txt.in` lies under the
declared units directory and carries the extension `.txt.in`, yet it is
classified as an unknown file with no loader, because
`os.path.splitext` reports its extension as `.in`, which the units rule
does not accept; conversely `/p/jobs/a.in` carries none of the
extensions `.txt`, `.txt.in`, `.pxu`, yet is classified as a unit source
with loader `UnitPlugIn2`, because the jobs rule accepts the bare `.in`
extension. -/
theorem claim_C6_counterexample :
    pyStartsWith "/p/units/a.txt.in" "/p/units" = true ∧
    pyEndsWith "/p/units/a.txt.in" ".txt.in" = true ∧
    classify cfgEx envEx "/p/units/a.txt.in" = some (.unknown, some "/p", none) ∧
    pyStartsWith "/p/jobs/a.in" "/p/jobs" = true ∧
    pyEndsWith "/p/jobs/a.in" ".txt" = false ∧
    pyEndsWith "/p/jobs/a.in" ".txt.in" = false ∧
    pyEndsWith "/p/jobs/a.in" ".pxu" = false ∧
    classify cfgEx envEx "/p/jobs/a.in"
      = some (.unit_source, some "/p/jobs", some .UnitPlugIn2) := by
  decide

open ProviderContentClassifier in
/-- Claim C6 (amended): for a path under the declared jobs directory,
`classify` yields role `unit_source` with loader `UnitPlugIn2` exactly
when `os.path.splitext` reports the extension `.txt`, `.in` or `.pxu`
(so `foo.txt.in` qualifies through its `.in` extension, as does any
other `.in` file); for a path under the declared units directory (with
no jobs directory declared), exactly when the reported extension is
`.txt` or `.pxu` — the `.txt.in` entry of the source tuple is
unreachable because `splitext` never reports a two-dot extension; and
for a path under the declared whitelists directory (with no jobs or
units directory declared), role `legacy_whitelist` with loader
`WhiteListPlugIn2` exactly when the filename ends in `.whitelist`. -/
theorem claim_C6_amended :
    (∀ cfg env f jd, cfg.jobs_dir = some jd → pyStartsWith f jd = true →
      (classify cfg env f = some (.unit_source, some jd, some .UnitPlugIn2)
        ↔ splitextExt f ∈ ([".txt", ".in", ".pxu"] : List String))) ∧
    (∀ cfg env f ud, cfg.jobs_dir = none → cfg.units_dir = some ud →
      pyStartsWith f ud = true →
      (classify cfg env f = some (.unit_source, some ud, some .UnitPlugIn2)
        ↔ splitextExt f ∈ ([".txt", ".pxu"] : List String))) ∧
    (∀ f, splitextExt f ≠ ".txt.in") ∧
    (∀ cfg env f wd, cfg.jobs_dir = none → cfg.units_dir = none →
      cfg.whitelists_dir = some wd → pyStartsWith f wd = true →
      (classify cfg env f = some (.legacy_whitelist, some wd, some .WhiteListPlugIn2)
        ↔ pyEndsWith f ".whitelist" = true)) ∧
    splitextExt "/p/units/a.txt.in" = ".in" ∧
    classify cfgEx envEx "/p/jobs/a.pxu"
      = some (.unit_source, some "/p/jobs", some .UnitPlugIn2) ∧
    classify cfgEx envEx "/p/whitelists/a.whitelist"
      = some (.legacy_whitelist, some "/p/whitelists", some .WhiteListPlugIn2) := by
  refine ⟨?_, ?_, splitextExt_ne_txt_in, ?_, by decide, by decide, by decide⟩
  · intro cfg env f jd hjobs hstart
    constructor
    · intro h
      rcases classify_unit_source_origin h rfl with ⟨d, hd, hrule⟩ | ⟨d, hd, hrule⟩
      · exact (classify_pxu_jobs_inv hrule).2.1
      · obtain ⟨_, hext, heq⟩ := classify_pxu_units_inv hrule
        have hne := splitextExt_ne_txt_in f
        simp only [List.mem_cons, List.not_mem_nil, or_false] at hext ⊢
        rcases hext with he | he | he
        · exact Or.inl he
        · exact absurd he hne
        · exact Or.inr (Or.inr he)
    · intro hext
      refine classify_jobs_rule_first hjobs ?_
      simp [classify_pxu_jobs, hstart, hext]
  · intro cfg env f ud hjobs hunits hstart
    constructor
    · intro h
      rcases classify_unit_source_origin h rfl with ⟨d, hd, hrule⟩ | ⟨d, hd, hrule⟩
      · rw [hjobs] at hd; exact absurd hd (by simp)
      · obtain ⟨_, hext, heq⟩ := classify_pxu_units_inv hrule
        have hne := splitextExt_ne_txt_in f
        simp only [List.mem_cons, List.not_mem_nil, or_false] at hext ⊢
        rcases hext with he | he | he
        · exact Or.inl he
        · exact absurd he hne
        · exact Or.inr he
    · intro hext
      refine classify_units_rule_first hjobs hunits ?_
      have hext2 : splitextExt f ∈ ([".txt", ".txt.in", ".pxu"] : List String) := by
        simp only [List.mem_cons, List.not_mem_nil, or_false] at hext ⊢
        rcases hext with he | he
        · exact Or.inl he
        · exact Or.inr (Or.inr he)
      simp [classify_pxu_units, hstart, hext2]
  · intro cfg env f wd hjobs hunits hwhite hstart
    constructor
    · intro h
      obtain ⟨d, hd, hrule⟩ := classify_legacy_whitelist_origin h rfl
      exact (classify_whitelist_inv hrule).2.1
    · intro hend
      refine classify_whitelist_rule_first hjobs hunits hwhite ?_
      simp [classify_whitelist, hstart, hend]

/-- Claim C7 (evaluation at the failing input): loading a legacy
`.whitelist` file synthesizes exactly two units, both virtual, both
with an origin naming the source file; the test plan unit carries the
raw text verbatim in `include` and the basename of the file as id and
name; the modern loader marks its file-provenance unit virtual; but the
file-provenance `FileUnit` synthesized by the legacy unit-source loader
(`UnitPlugIn._make_file_unit`) is built without `virtual=True` and is
therefore not marked virtual, contradicting the claim and the
documentation of the synthesizer itself. -/
theorem claim_C7_virtual_synthesis_eval :
    (∀ fn tx, (WhiteListPlugIn.synthetize_virtual_units fn tx).length = 2) ∧
    (∀ fn tx, ∀ u ∈ WhiteListPlugIn.synthetize_virtual_units fn tx,
      u.virtual = true ∧ u.origin.source = fn) ∧
    (∀ fn tx,
      lookupS "include" (WhiteListPlugIn.make_test_plan_unit fn tx).data
        = some (.str tx) ∧
      lookupS "id" (WhiteListPlugIn.make_test_plan_unit fn tx).data
        = some (.str (pyBasename (splitextRoot fn))) ∧
      lookupS "name" (WhiteListPlugIn.make_test_plan_unit fn tx).data
        = some (.str (pyBasename (splitextRoot fn))) ∧
      (WhiteListPlugIn.make_test_plan_unit fn tx).origin
        = ⟨fn, some 1, some (tx.data.count '\n')⟩) ∧
    (∀ fn, (WhiteListPlugIn.make_file_unit fn).kind = "file" ∧
      lookupS "role" (WhiteListPlugIn.make_file_unit fn).data
        = some (.role .legacy_whitelist) ∧
      (WhiteListPlugIn.make_file_unit fn).origin = ⟨fn, none, none⟩) ∧
    (∀ role base fn, (ProviderContentPlugIn.make_file_unit role base fn).virtual = true) ∧
    (∀ fn, lookupS "role" (UnitPlugIn.make_file_unit fn).data
        = some (.role .unit_source) ∧
      (UnitPlugIn.make_file_unit fn).origin = ⟨fn, none, none⟩ ∧
      (UnitPlugIn.make_file_unit fn).virtual = false) ∧
    (UnitPlugIn.synthetize_virtual_units "/p/jobs/a.pxu").map ModelUnit.virtual
      = [false] := by
  refine ⟨fun fn tx => rfl, ?_, fun fn tx => ⟨rfl, rfl, rfl, rfl⟩,
    fun fn => ⟨rfl, rfl, rfl⟩, fun role base fn => rfl,
    fun fn => ⟨rfl, rfl, rfl⟩, rfl⟩
  intro fn tx u hu
  rcases List.mem_cons.mp hu with rfl | hu
  · exact ⟨rfl, rfl⟩
  · rcases List.mem_cons.mp hu with rfl | hu
    · exact ⟨rfl, rfl⟩
    · exact absurd hu (List.not_mem_nil u)

/-- Claim C9: the module `plainbox.impl.secure.providers.v1` never binds
the name `collections` (it is neither imported, nor defined at module
level, nor a Python builtin), while `ProviderContentLoader.__init__`
evaluates `collections.defaultdict`; so constructing
`ProviderContentLoader` raises `NameError` for every provider
argument. -/
theorem claim_C9_missing_collections_import :
    providerContentLoaderInitRaisesNameError = true ∧
    resolvesAtV1ModuleLevel "collections" = false ∧
    v1ModuleImportedNames.contains "collections" = false ∧
    v1ModuleLevelNames.contains "collections" = false ∧
    pythonBuiltinNames.contains "collections" = false ∧
    providerContentLoaderInitGlobalRefs.contains "collections" = true := by
  decide

/-- Claim C10: with `provider=None` (the constructor default),
`WhiteListPlugIn2.discover_units` yields no units at all, while
`discover_whitelists` still yields the parsed selection list; the
two-virtual-unit synthesis happens only when a provider is supplied. -/
theorem claim_C10_whitelist2_needs_provider :
    (∀ fn tx, WhiteListPlugIn2.discover_units none fn tx = []) ∧
    (∀ wl, WhiteListPlugIn2.discover_whitelists wl = [wl]) ∧
    (∀ p fn tx, (WhiteListPlugIn2.discover_units (some p) fn tx).length = 2 ∧
      ∀ u ∈ WhiteListPlugIn2.discover_units (some p) fn tx, u.virtual = true) ∧
    (∀ p fn tx, WhiteListPlugIn2.discover_units (some p) fn tx =
      [ProviderContentPlugIn.make_file_unit .legacy_whitelist p.whitelists_dir fn,
       WhiteListPlugIn2.make_test_plan_unit fn tx]) ∧
    WhiteListPlugIn2.discover_units none "/p/whitelists/a.whitelist" "job-a\n" = [] ∧
    WhiteListPlugIn2.discover_whitelists
        (WhiteListPlugIn2.inspect "/p/whitelists/a.whitelist" "job-a\n")
      = [WhiteListPlugIn2.inspect "/p/whitelists/a.whitelist" "job-a\n"] := by
  refine ⟨fun fn tx => rfl, fun wl => rfl, ?_, fun p fn tx => rfl, rfl, rfl⟩
  intro p fn tx
  refine ⟨rfl, ?_⟩
  intro u hu
  rcases List.mem_cons.mp hu with rfl | hu
  · rfl
  · rcases List.mem_cons.mp hu with rfl | hu
    · rfl
    · exact absurd hu (List.not_mem_nil u)


/-- Claim C8: the unit loader selects the constructor from the kind
registry by the declared `unit` field of the record, with kind `job` when
that field is absent; an unregistered kind fails the file with an
unknown-unit-kind error naming the kind; a constructor `ValueError`
becomes a unit-definition error naming the record; and a parse failure
of the file is a cannot-load error. -/
theorem claim_C8_record_dispatch :
    (∀ env r, lookupS "unit" r = none → lookupS "job" env.registry = none →
      UnitPlugIn2.dispatchRecord env r = .error (.unknownUnit "job")) ∧
    (∀ env r k, lookupS "unit" r = some k → lookupS k env.registry = none →
      UnitPlugIn2.dispatchRecord env r = .error (.unknownUnit k)) ∧
    (∀ env r ctor msg,
      lookupS ((lookupS "unit" r).getD "job") env.registry = some ctor →
      ctor r = .error msg →
      UnitPlugIn2.dispatchRecord env r = .error (.unitDef r msg)) ∧
    (∀ env rs1 r rs2 e,
      (∀ x ∈ rs1, ∃ u, UnitPlugIn2.dispatchRecord env x = .ok u) →
      UnitPlugIn2.dispatchRecord env r = .error e →
      UnitPlugIn2.dispatchAll env (rs1 ++ r :: rs2) = .error e) ∧
    (∀ env fn text e, rfc822.load_rfc822_records text = .error e →
      UnitPlugIn2.inspect env fn text = .error (.cannotLoad fn e)) ∧
    UnitPlugIn2.inspect loaderEnvEx "/p/jobs/a.txt" "unit: frob\nid: x\n"
      = .error (.unknownUnit "frob") ∧
    UnitPlugIn2.inspect loaderEnvEx "/p/jobs/a.txt" "id: a1\n"
      = .ok [{ kind := "job", data := [("id", .str "a1")],
               origin := ⟨"", none, none⟩, virtual := false,
               hasIdField := true, hasPathField := false }] := by
  refine ⟨?_, ?_, ?_, ?_, ?_, rfl, rfl⟩
  · intro env r h1 h2
    simp [UnitPlugIn2.dispatchRecord, h1, h2]
  · intro env r k h1 h2
    simp [UnitPlugIn2.dispatchRecord, h1, h2]
  · intro env r ctor msg h1 h2
    simp [UnitPlugIn2.dispatchRecord, h1, h2]
  · intro env rs1 r rs2 e hok herr
    induction rs1 with
    | nil => simp [UnitPlugIn2.dispatchAll, herr]
    | cons x rs ih =>
      obtain ⟨u, hu⟩ := hok x (List.mem_cons_self x rs)
      have hrest := ih (fun y hy => hok y (List.mem_cons_of_mem x hy))
      simp [UnitPlugIn2.dispatchAll, hu, hrest, Except.map]
  · intro env fn text e h
    simp [UnitPlugIn2.inspect, h]


theorem indexUnit_fields (st : LoaderState) (u : ModelUnit) :
    (indexUnit st u).unit_list = st.unit_list ∧
    (indexUnit st u).whitelist_list = st.whitelist_list ∧
    (indexUnit st u).problem_list = st.problem_list ∧
    (indexUnit st u).is_loaded = st.is_loaded := by
  unfold indexUnit indexUnitPath indexUnitId
  split <;> split <;> exact ⟨rfl, rfl, rfl, rfl⟩

theorem foldl_indexUnit_fields (us : List ModelUnit) : ∀ st : LoaderState,
    (us.foldl indexUnit st).unit_list = st.unit_list ∧
    (us.foldl indexUnit st).whitelist_list = st.whitelist_list ∧
    (us.foldl indexUnit st).problem_list = st.problem_list ∧
    (us.foldl indexUnit st).is_loaded = st.is_loaded := by
  induction us with
  | nil => intro st; exact ⟨rfl, rfl, rfl, rfl⟩
  | cons u us ih =>
    intro st
    obtain ⟨h1, h2, h3, h4⟩ := ih (indexUnit st u)
    obtain ⟨g1, g2, g3, g4⟩ := indexUnit_fields st u
    exact ⟨by rw [List.foldl_cons, h1, g1], by rw [List.foldl_cons, h2, g2],
      by rw [List.foldl_cons, h3, g3], by rw [List.foldl_cons, h4, g4]⟩

theorem load_file_spec (cfg : ProviderDirs) (fsenv : FsEnv) (plug : PluginRunner)
    (st0 : LoaderState) (fn tx : String) : ∃ st,
    ProviderContentLoader.load_file cfg fsenv plug st0 fn tx = .ok st ∧
    st.unit_list = st0.unit_list ++ outcomeUnits (fileLoadOutcome cfg fsenv plug fn tx) ∧
    st.whitelist_list
      = st0.whitelist_list ++ outcomeWhitelists (fileLoadOutcome cfg fsenv plug fn tx) ∧
    st.problem_list
      = st0.problem_list ++ outcomeProblems (fileLoadOutcome cfg fsenv plug fn tx) ∧
    st.is_loaded = st0.is_loaded := by
  unfold ProviderContentLoader.load_file fileLoadOutcome
  obtain ⟨⟨role, base, cls⟩, hr⟩ := ProviderContentClassifier.classify_total cfg fsenv fn
  rw [hr]
  cases cls with
  | none =>
    dsimp only
    exact ⟨st0, rfl, by simp [outcomeUnits], by simp [outcomeWhitelists],
      by simp [outcomeProblems], rfl⟩
  | some c =>
    dsimp only
    cases hp : plug c fn tx with
    | error e =>
      dsimp only
      exact ⟨{ st0 with problem_list := st0.problem_list ++ [e] }, rfl,
        by simp [outcomeUnits], by simp [outcomeWhitelists], by simp [outcomeProblems], rfl⟩
    | ok pr =>
      obtain ⟨us, ws⟩ := pr
      dsimp only
      obtain ⟨h1, h2, h3, h4⟩ := foldl_indexUnit_fields us
        { st0 with unit_list := st0.unit_list ++ us,
                   whitelist_list := st0.whitelist_list ++ ws }
      refine ⟨_, rfl, ?_, ?_, ?_, ?_⟩
      · rw [h1]; simp [outcomeUnits]
      · rw [h2]; simp [outcomeWhitelists]
      · rw [h3]; simp [outcomeProblems]
      · rw [h4]

theorem load_files_spec (cfg : ProviderDirs) (fsenv : FsEnv) (plug : PluginRunner) :
    ∀ (files : List (String × String)) (st0 : LoaderState), ∃ st,
    ProviderContentLoader.load_files cfg fsenv plug st0 files = .ok st ∧
    st.unit_list = st0.unit_list ++ filesUnits cfg fsenv plug files ∧
    st.whitelist_list = st0.whitelist_list ++ filesWhitelists cfg fsenv plug files ∧
    st.problem_list = st0.problem_list ++ filesProblems cfg fsenv plug files ∧
    st.is_loaded = st0.is_loaded := by
  intro files
  induction files with
  | nil =>
    intro st0
    exact ⟨st0, rfl, by simp [filesUnits], by simp [filesWhitelists],
      by simp [filesProblems], rfl⟩
  | cons p rest ih =>
    intro st0
    obtain ⟨fn, tx⟩ := p
    obtain ⟨st1, e1, u1, w1, p1, l1⟩ := load_file_spec cfg fsenv plug st0 fn tx
    obtain ⟨st2, e2, u2, w2, p2, l2⟩ := ih st1
    refine ⟨st2, ?_, ?_, ?_, ?_, ?_⟩
    · unfold ProviderContentLoader.load_files
      rw [e1]
      exact e2
    · rw [u2, u1]; simp only [filesUnits, List.flatMap_cons, List.append_assoc]
    · rw [w2, w1]; simp only [filesWhitelists, List.flatMap_cons, List.append_assoc]
    · rw [p2, p1]; simp only [filesProblems, List.flatMap_cons, List.append_assoc]
    · rw [l2, l1]


/-- Claim C1: a full `load` pass never raises — every file is classified
(classification is total), files without a loader strategy are skipped,
a loader failure contributes exactly its one problem entry while the
units and whitelists of all other files still accumulate in file order,
the enumeration problem list is merged at the end, and the loaded flag
is set.  The concrete instance runs three unit-source files of which
exactly the second has a syntax error: the four units of the other two files
all load and exactly one problem is recorded. -/
theorem claim_C1_load_tolerates_failures :
    (∀ cfg fsenv plug files enumProblems st0, ∃ st,
      ProviderContentLoader.load cfg fsenv plug files enumProblems st0 = .ok st ∧
      st.unit_list = st0.unit_list ++ filesUnits cfg fsenv plug files ∧
      st.whitelist_list = st0.whitelist_list ++ filesWhitelists cfg fsenv plug files ∧
      st.problem_list
        = st0.problem_list ++ filesProblems cfg fsenv plug files ++ enumProblems ∧
      st.is_loaded = true) ∧
    (∀ cfg fsenv plug fn tx e,
      fileLoadOutcome cfg fsenv plug fn tx = some (.error e) →
      outcomeProblems (fileLoadOutcome cfg fsenv plug fn tx) = [e]) ∧
    (ProviderContentLoader.load cfgEx envEx plugEx
        [("/p/jobs/a.txt", "id: a1\n"), ("/p/jobs/b.txt", "key:\ngarbage\n"),
         ("/p/jobs/c.txt", "id: c1\n")] [] stEmpty).map
      (fun st => (st.unit_list.length, st.problem_list, st.is_loaded))
      = .ok (4, [.cannotLoad "/p/jobs/b.txt" ⟨2, "Unexpected non-empty line".data⟩],
             true) := by
  refine ⟨?_, ?_, rfl⟩
  · intro cfg fsenv plug files enumProblems st0
    obtain ⟨st, he, hu, hw, hp, hl⟩ := load_files_spec cfg fsenv plug files st0
    refine ⟨{ st with
              problem_list := st.problem_list ++ enumProblems
              is_loaded := true }, ?_, hu, hw, ?_, rfl⟩
    · unfold ProviderContentLoader.load
      rw [he]
      rfl
    · rw [hp]
  · intro cfg fsenv plug fn tx e h
    rw [h]
    rfl

/-!
Lemmas about whitespace stripping and the period escape.
-/

theorem dropWhile_eq_self_of_all {p : Char → Bool} {l : List Char}
    (h : ∀ c ∈ l, p c = false) : l.dropWhile p = l := by
  cases l with
  | nil => rfl
  | cons c cs =>
    rw [List.dropWhile_cons, if_neg]
    simp [h c (List.mem_cons_self c cs)]

theorem stripChars_no_space {l : List Char}
    (h : ∀ c ∈ l, isPySpace c = false) : stripChars l = l := by
  unfold stripChars
  rw [dropWhile_eq_self_of_all h,
    dropWhile_eq_self_of_all (fun c hc => h c (List.mem_reverse.mp hc)),
    List.reverse_reverse]

theorem replicate_dots_no_space (n : Nat) :
    ∀ c ∈ List.replicate n '.', isPySpace c = false := by
  intro c hc
  rw [List.eq_of_mem_replicate hc]
  rfl

theorem allDots_replicate {n : Nat} (h : 1 ≤ n) :
    allDots (List.replicate n '.') = true := by
  unfold allDots
  rw [Bool.and_eq_true]
  constructor
  · cases n with
    | zero => omega
    | succ m => simp [List.replicate_succ]
  · rw [List.all_eq_true]
    intro c hc
    rw [List.eq_of_mem_replicate hc]
    rfl

theorem decodeDots_replicate {n : Nat} (h : 1 ≤ n) :
    rfc822.decodeDots (List.replicate n '.') = List.replicate (n - 1) '.' := by
  unfold rfc822.decodeDots
  rw [stripChars_no_space (replicate_dots_no_space n), if_pos (allDots_replicate h)]
  obtain ⟨m, rfl⟩ : ∃ m, n = m + 1 := ⟨n - 1, by omega⟩
  rw [List.replicate_succ', List.dropLast_concat]
  simp

/-- Claim C4: period-escape decoding inside continuation lines.  The two
pinned inputs parse as claimed (a lone period line becomes an empty line
inside the value, a double period line becomes a single period), a line
of N periods (N at least 2) decodes to N-1 periods in general, and
continuation lines are joined with newline characters. -/
theorem claim_C4_period_escapes :
    rfc822.load_rfc822_records "key:\n longer\n .\n value\n"
      = .ok [[("key", "longer\n\nvalue")]] ∧
    rfc822.load_rfc822_records "key:\n longer\n ..\n value\n"
      = .ok [[("key", "longer\n.\nvalue")]] ∧
    (∀ n, 2 ≤ n → rfc822.decodeDots (List.replicate n '.')
      = List.replicate (n - 1) '.') ∧
    rfc822.decodeDots ['.'] = [] ∧
    rfc822.load_rfc822_records "key:\n a\n b\n c\n" = .ok [[("key", "a\nb\nc")]] := by
  refine ⟨rfl, rfl, ?_, rfl, rfl⟩
  intro n hn
  exact decodeDots_replicate (by omega)

/-- The duplicate-key message really names the key and both values. -/
theorem dupMsg_mentions_all (k old new : List Char) :
    k <:+: rfc822.dupMsg k old new ∧ old <:+: rfc822.dupMsg k old new ∧
      new <:+: rfc822.dupMsg k old new := by
  unfold rfc822.dupMsg
  refine ⟨⟨"Job has a duplicate key ".data ++ [rfc822.quoteChar],
      [rfc822.quoteChar] ++ " with old value ".data ++ [rfc822.quoteChar] ++ old
        ++ [rfc822.quoteChar] ++ " and new value ".data ++ [rfc822.quoteChar] ++ new
        ++ [rfc822.quoteChar], ?_⟩,
    ⟨"Job has a duplicate key ".data ++ [rfc822.quoteChar] ++ k ++ [rfc822.quoteChar]
        ++ " with old value ".data ++ [rfc822.quoteChar],
      [rfc822.quoteChar] ++ " and new value ".data ++ [rfc822.quoteChar] ++ new
        ++ [rfc822.quoteChar], ?_⟩,
    ⟨"Job has a duplicate key ".data ++ [rfc822.quoteChar] ++ k ++ [rfc822.quoteChar]
        ++ " with old value ".data ++ [rfc822.quoteChar] ++ old ++ [rfc822.quoteChar]
        ++ " and new value ".data ++ [rfc822.quoteChar],
      [rfc822.quoteChar], ?_⟩⟩ <;> simp [List.append_assoc]

/-- Claim C5: a key-colon-value line whose key already exists in the
record under construction is a duplicate-key syntax error whose message
names the key, the old value and the new value; on the pinned input the
error is raised at line 2 with exactly the message of the format
string in the source. -/
theorem claim_C5_duplicate_key_error :
    rfc822.load_rfc822_records "key1: value1\nkey1: value2\n"
      = .error ⟨2, rfc822.dupMsg "key1".data "value1".data "value2".data⟩ ∧
    (∀ k old new, k <:+: rfc822.dupMsg k old new ∧ old <:+: rfc822.dupMsg k old new ∧
      new <:+: rfc822.dupMsg k old new) ∧
    (∀ st n line kcs vcs old, ¬stripChars line = [] → ¬line.head? = some ' ' →
      splitFirstColon line = some (kcs, vcs) →
      lookupStr (stripChars kcs) (rfc822.flushField st).fields = some old →
      rfc822.processLine st n line
        = .error ⟨n, rfc822.dupMsg (stripChars kcs) old (stripChars vcs)⟩) := by
  refine ⟨rfl, dupMsg_mentions_all, ?_⟩
  intro st n line kcs vcs old h1 h2 h3 h4
  unfold rfc822.processLine
  rw [if_neg h1, if_neg h2, h3]
  dsimp only
  rw [h4]

/-!
Round-trip preconditions and the supporting lemmas about line splitting,
joining and stripping.
-/


theorem splitNlGo_ne_nil (cs : List Char) : ∀ acc, splitNlGo acc cs ≠ [] := by
  induction cs with
  | nil => intro acc; simp [splitNlGo]
  | cons c cs ih =>
    intro acc
    unfold splitNlGo
    split
    · simp
    · exact ih (c :: acc)

theorem splitNlGo_no_newline (cs : List Char) :
    ∀ acc, ('\n' ∉ acc) → ∀ l ∈ splitNlGo acc cs, '\n' ∉ l := by
  induction cs with
  | nil =>
    intro acc hacc l hl
    rw [splitNlGo] at hl
    rcases List.mem_singleton.mp hl with rfl
    simpa using hacc
  | cons c cs ih =>
    intro acc hacc l hl
    unfold splitNlGo at hl
    split at hl
    · rcases List.mem_cons.mp hl with rfl | hl
      · simpa using hacc
      · exact ih [] (by simp) l hl
    · next hc =>
      refine ih (c :: acc) ?_ l hl
      intro hmem
      rcases List.mem_cons.mp hmem with rfl | hmem
      · exact hc rfl
      · exact hacc hmem

theorem splitNl_no_newline {v l : List Char} (h : l ∈ splitNl v) : '\n' ∉ l :=
  splitNlGo_no_newline v [] (by simp) l h

theorem joinNl_splitNlGo (cs : List Char) :
    ∀ acc, joinNl (splitNlGo acc cs) = acc.reverse ++ cs := by
  induction cs with
  | nil => intro acc; simp [splitNlGo, joinNl]
  | cons c cs ih =>
    intro acc
    unfold splitNlGo
    split
    · next hc =>
      subst hc
      obtain ⟨x, xs, hx⟩ : ∃ x xs, splitNlGo ([] : List Char) cs = x :: xs := by
        rcases hsp : splitNlGo ([] : List Char) cs with _ | ⟨x, xs⟩
        · exact absurd hsp (splitNlGo_ne_nil cs [])
        · exact ⟨x, xs, rfl⟩
      have := ih ([] : List Char)
      rw [hx] at this ⊢
      show joinNl (acc.reverse :: x :: xs) = acc.reverse ++ '\n' :: cs
      unfold joinNl
      rw [this]
      simp
    · rw [ih (c :: acc)]
      simp

theorem joinNl_splitNl (v : List Char) : joinNl (splitNl v) = v := by
  unfold splitNl
  rw [joinNl_splitNlGo v []]
  rfl

theorem splitLinesGo_encode {l : List Char} (hl : '\n' ∉ l) :
    ∀ acc rest, splitLinesGo acc (l ++ '\n' :: rest)
      = (acc.reverse ++ l) :: (if rest.isEmpty then [] else splitLinesGo [] rest) := by
  induction l with
  | nil => intro acc rest; simp [splitLinesGo]
  | cons c cs ih =>
    intro acc rest
    have hc : ¬c = '\n' := fun h => hl (h ▸ List.mem_cons_self c cs)
    rw [List.cons_append, splitLinesGo, if_neg hc,
      ih (fun hm => hl (List.mem_cons_of_mem c hm)) (c :: acc) rest]
    simp [List.append_assoc]

theorem encode_flatMap_ne_nil (l : List Char) (ls : List (List Char)) :
    (l :: ls).flatMap (fun x => x ++ ['\n']) ≠ [] := by
  rw [List.flatMap_cons]
  rcases l with _ | ⟨c, cs⟩ <;> simp

theorem pyLines_encode : ∀ ls : List (List Char), ls ≠ [] →
    (∀ l ∈ ls, '\n' ∉ l) → pyLines (ls.flatMap (fun l => l ++ ['\n'])) = ls := by
  intro ls
  induction ls with
  | nil => intro h; exact absurd rfl h
  | cons l ls ih =>
    intro _ hnl
    have hstep : (l :: ls).flatMap (fun x => x ++ ['\n']) = l ++ '\n' :: ls.flatMap (fun x => x ++ ['\n']) := by
      rw [List.flatMap_cons]
      simp
    have hpy : pyLines ((l :: ls).flatMap (fun x => x ++ ['\n']))
        = splitLinesGo [] ((l :: ls).flatMap (fun x => x ++ ['\n'])) := by
      unfold pyLines
      split
      · next heq => exact absurd heq (encode_flatMap_ne_nil l ls)
      · rfl
    rw [hpy, hstep, splitLinesGo_encode (hnl l (List.mem_cons_self l ls)) [] _]
    rcases ls with _ | ⟨l2, ls2⟩
    · simp
    · rw [if_neg (by simp only [List.isEmpty_iff]; exact encode_flatMap_ne_nil l2 ls2)]
      have := ih (by simp) (fun x hx => hnl x (List.mem_cons_of_mem l hx))
      have hpy2 : pyLines ((l2 :: ls2).flatMap (fun x => x ++ ['\n']))
          = splitLinesGo [] ((l2 :: ls2).flatMap (fun x => x ++ ['\n'])) := by
        unfold pyLines
        split
        · next heq => exact absurd heq (encode_flatMap_ne_nil l2 ls2)
        · rfl
      rw [hpy2] at this
      rw [this]
      simp

theorem stripChars_cons_space (c : Char) (l : List Char) (h : isPySpace c = true) :
    stripChars (c :: l) = stripChars l := by
  unfold stripChars
  rw [List.dropWhile_cons, if_pos h]

theorem stripChars_length_le (l : List Char) : (stripChars l).length ≤ l.length := by
  unfold stripChars
  calc ((l.dropWhile isPySpace).reverse.dropWhile isPySpace).reverse.length
      = ((l.dropWhile isPySpace).reverse.dropWhile isPySpace).length := by
        rw [List.length_reverse]
    _ ≤ (l.dropWhile isPySpace).reverse.length :=
        (List.dropWhile_suffix _).sublist.length_le
    _ = (l.dropWhile isPySpace).length := by rw [List.length_reverse]
    _ ≤ l.length := (List.dropWhile_suffix _).sublist.length_le

theorem stripChars_fix_head {c : Char} {l : List Char}
    (h : stripChars (c :: l) = c :: l) : isPySpace c = false := by
  by_contra hc
  rw [Bool.not_eq_false] at hc
  have h2 := stripChars_cons_space c l hc
  rw [h] at h2
  have := stripChars_length_le l
  rw [← h2] at this
  simp at this

theorem dropWhile_concat_ne_nil {p : Char → Bool} {c : Char} (hc : p c = false) :
    ∀ xs : List Char, (xs ++ [c]).dropWhile p ≠ [] := by
  intro xs
  induction xs with
  | nil => simp [List.dropWhile, hc]
  | cons x xs ih =>
    rw [List.cons_append, List.dropWhile_cons]
    split
    · exact ih
    · simp

theorem stripChars_cons_ne_nil {c : Char} {l : List Char} (hc : isPySpace c = false) :
    stripChars (c :: l) ≠ [] := by
  unfold stripChars
  rw [List.dropWhile_cons, if_neg (by simp [hc]), List.reverse_cons]
  intro h
  rw [List.reverse_eq_nil_iff] at h
  exact dropWhile_concat_ne_nil hc l.reverse h

theorem splitFirstColon_encode {k : List Char} (hk : ':' ∉ k) (rest : List Char) :
    splitFirstColon (k ++ ':' :: rest) = some (k, rest) := by
  induction k with
  | nil => simp [splitFirstColon]
  | cons c cs ih =>
    have hc : ¬c = ':' := fun h => hk (h ▸ List.mem_cons_self c cs)
    rw [List.cons_append]
    unfold splitFirstColon
    rw [if_neg hc, ih (fun hm => hk (List.mem_cons_of_mem c hm))]
    rfl

theorem allDots_no_space {l : List Char} (h : allDots l = true) :
    ∀ c ∈ l, isPySpace c = false := by
  intro c hc
  unfold allDots at h
  rw [Bool.and_eq_true, List.all_eq_true] at h
  have := h.2 c hc
  rw [show c = '.' by simpa using this]
  rfl

theorem allDots_eq_replicate {l : List Char} (h : allDots l = true) :
    l = List.replicate l.length '.' := by
  refine List.eq_replicate_of_mem ?_
  intro b hb
  unfold allDots at h
  rw [Bool.and_eq_true, List.all_eq_true] at h
  simpa using h.2 b hb

theorem dropLast_cons_allDots {l : List Char} (h : allDots l = true) :
    ('.' :: l).dropLast = l := by
  have hrep := allDots_eq_replicate h
  rw [hrep, show ('.' :: List.replicate l.length '.') = List.replicate (l.length + 1) '.'
    from (List.replicate_succ '.' l.length).symm, List.replicate_succ',
    List.dropLast_concat]

theorem lookupStr_append (x : List Char) (a b : List (List Char × List Char)) :
    lookupStr x (a ++ b) = match lookupStr x a with
      | some v => some v
      | none => lookupStr x b := by
  induction a with
  | nil => rfl
  | cons p r ih =>
    obtain ⟨k, v⟩ := p
    rw [List.cons_append]
    by_cases hk : k = x
    · simp [lookupStr, hk]
    · simp [lookupStr, hk, ih]

theorem lookupStr_eq_none_keys {x : List Char} {l : List (List Char × List Char)}
    (h : lookupStr x l = none) : ∀ p ∈ l, p.1 ≠ x := by
  induction l with
  | nil => simp
  | cons q r ih =>
    obtain ⟨k, v⟩ := q
    intro p hp
    unfold lookupStr at h
    split at h
    · exact absurd h (by simp)
    · rcases List.mem_cons.mp hp with rfl | hp
      · next hne => exact hne
      · exact ih h p hp

namespace rfc822

/-- The components of a well-formed key. -/
theorem wfKeyB_parts {k : List Char} (hk : wfKeyB k = true) :
    stripChars k = k ∧ k ≠ [] ∧ ':' ∉ k ∧ '\n' ∉ k := by
  unfold wfKeyB at hk
  simp only [Bool.and_eq_true, beq_iff_eq, Bool.not_eq_true', decide_eq_true_eq] at hk
  obtain ⟨⟨⟨h1, h2⟩, h3⟩, h4⟩ := hk
  refine ⟨h1, ?_, h3, h4⟩
  intro hcon
  rw [hcon] at h2
  simp at h2

/-- Processing the `key:`-line of a dumped field: the open field is
flushed, the key becomes the stripped key, the inline value part (when
non-empty after stripping) seeds the value lines. -/
theorem processLine_keyline (st : ParserState) (n : Nat) (k w : List Char)
    (hk : wfKeyB k = true)
    (hdup : lookupStr k (flushField st).fields = none) :
    processLine st n (k ++ ':' :: w)
      = .ok { records := st.records, fields := (flushField st).fields,
              key := some k,
              valueParts := if (stripChars w).isEmpty then [] else [stripChars w] } := by
  obtain ⟨hstrip, hne, hcolon, _⟩ := wfKeyB_parts hk
  obtain ⟨c, t, rfl⟩ : ∃ c t, k = c :: t := by
    cases k with
    | nil => exact absurd rfl hne
    | cons c t => exact ⟨c, t, rfl⟩
  have hcspace : isPySpace c = false := stripChars_fix_head hstrip
  have h1 : ¬stripChars ((c :: t) ++ ':' :: w) = [] := by
    rw [List.cons_append]
    exact stripChars_cons_ne_nil hcspace
  have h2 : ¬((c :: t) ++ ':' :: w).head? = some ' ' := by
    rw [List.cons_append]
    intro h
    have hc : c = ' ' := by simpa using h
    rw [hc] at hcspace
    exact absurd hcspace (by decide)
  unfold processLine
  rw [if_neg h1, if_neg h2, splitFirstColon_encode hcolon w]
  dsimp only
  rw [hstrip, hdup]
  rfl

/-- Processing one written continuation line appends the original value
line to the parts of the open field. -/
theorem processLine_cont (st : ParserState) (n : Nat) (l k : List Char)
    (hkey : st.key = some k) (hl : wfLineB l = true) :
    processLine st n (dumpCont l)
      = .ok { st with valueParts := st.valueParts ++ [l] } := by
  unfold wfLineB at hl
  rw [Bool.and_eq_true, Bool.or_eq_true, Bool.or_eq_true] at hl
  obtain ⟨hl1, hl2⟩ := hl
  by_cases hnil : l = []
  · subst hnil
    have hdc : dumpCont [] = [' ', '.'] := rfl
    rw [hdc]
    unfold processLine
    rw [if_neg (by decide), if_pos (by decide), hkey]
    dsimp only
    rw [show decodeDots [' ', '.'].tail = [] by decide]
  · by_cases hdots : allDots l = true
    · have hnos : ∀ c ∈ ('.' :: l), isPySpace c = false := by
        intro c hc
        rcases List.mem_cons.mp hc with rfl | hc
        · rfl
        · exact allDots_no_space hdots c hc
      have hdots2 : allDots ('.' :: l) = true := by
        unfold allDots at hdots ⊢
        rw [Bool.and_eq_true] at hdots ⊢
        refine ⟨by simp, ?_⟩
        rw [List.all_cons, Bool.and_eq_true]
        exact ⟨by decide, hdots.2⟩
      have hdc : dumpCont l = ' ' :: '.' :: l := by
        unfold dumpCont
        rw [if_neg (by simp only [List.isEmpty_iff]; exact hnil), if_pos hdots]
      rw [hdc]
      have hstrip : stripChars (' ' :: '.' :: l) = '.' :: l := by
        rw [stripChars_cons_space ' ' ('.' :: l) (by decide)]
        exact stripChars_no_space hnos
      unfold processLine
      rw [if_neg (by rw [hstrip]; simp), if_pos (by simp), hkey]
      dsimp only
      have hdec : decodeDots (' ' :: '.' :: l).tail = l := by
        show decodeDots ('.' :: l) = l
        unfold decodeDots
        rw [stripChars_no_space hnos, if_pos hdots2, dropLast_cons_allDots hdots]
      rw [hdec]
    · have hsne : ¬(stripChars l).isEmpty = true := by
        rcases hl1 with h | h
        · exact absurd (List.isEmpty_iff.mp h) hnil
        · simp only [Bool.not_eq_true', Bool.not_eq_true] at h ⊢
          simpa using h
      have hsdots : ¬allDots (stripChars l) = true := by
        rcases hl2 with h | h
        · simp only [Bool.not_eq_true', Bool.not_eq_true] at h ⊢
          simpa using h
        · intro hcon
          rw [beq_iff_eq] at h
          rw [← h] at hcon
          exact absurd hcon (by simp [hdots])
      have hdc : dumpCont l = ' ' :: l := by
        unfold dumpCont
        rw [if_neg (by simp only [List.isEmpty_iff]; exact hnil), if_neg hdots]
      rw [hdc]
      unfold processLine
      rw [if_neg (by
          rw [stripChars_cons_space ' ' l (by decide)]
          intro h
          rw [h] at hsne
          simp at hsne),
        if_pos (by simp), hkey]
      dsimp only
      have hdec : decodeDots (' ' :: l).tail = l := by
        show decodeDots l = l
        unfold decodeDots
        rw [if_neg hsdots]
      rw [hdec]

/-- Running the parser over the written continuation lines of a value
accumulates exactly the original lines. -/
theorem parseLoop_cont_block (ls : List (List Char)) :
    ∀ (st : ParserState) (n : Nat) (rest : List (List Char)) (k : List Char),
    st.key = some k → (∀ l ∈ ls, wfLineB l = true) →
    parseLoop st n ((ls.map dumpCont) ++ rest)
      = parseLoop { st with valueParts := st.valueParts ++ ls } (n + ls.length) rest := by
  induction ls with
  | nil =>
    intro st n rest k hk _
    simp
  | cons l ls ih =>
    intro st n rest k hk hwf
    have h1 := processLine_cont st n l k hk (hwf l (List.mem_cons_self l ls))
    simp only [List.map_cons, List.cons_append, parseLoop, h1, List.append_eq]
    rw [ih { st with valueParts := st.valueParts ++ [l] } (n + 1) rest k hk
      (fun x hx => hwf x (List.mem_cons_of_mem l hx))]
    have hs : st.valueParts ++ [l] ++ ls = st.valueParts ++ l :: ls := by simp
    have hn : n + 1 + ls.length = n + (l :: ls).length := by simp; omega
    rw [hs, hn]

/-- Running the parser over all lines one dumped field contributes:
the previously open field is flushed, the key of the field opens with value
parts that join back to the original value. -/
theorem parseLoop_field_block (st : ParserState) (n : Nat) (k v : List Char)
    (rest : List (List Char)) (hk : wfKeyB k = true) (hv : wfValB v = true)
    (hdup : lookupStr k (flushField st).fields = none) :
    ∃ parts, joinNl parts = v ∧
      parseLoop st n (dumpFieldLines k v ++ rest)
        = parseLoop { records := st.records, fields := (flushField st).fields,
                      key := some k, valueParts := parts }
            (n + (dumpFieldLines k v).length) rest := by
  unfold wfValB at hv
  by_cases hnl : '\n' ∈ v
  · rw [if_pos hnl, List.all_eq_true] at hv
    refine ⟨splitNl v, joinNl_splitNl v, ?_⟩
    have hdf : dumpFieldLines k v = (k ++ [':']) :: (splitNl v).map dumpCont := by
      unfold dumpFieldLines
      rw [if_pos hnl]
    rw [hdf]
    have hkey1 : processLine st n (k ++ [':'])
        = .ok { records := st.records, fields := (flushField st).fields,
                key := some k, valueParts := [] } := by
      rw [processLine_keyline st n k [] hk hdup]
      rfl
    rw [List.cons_append]
    simp only [parseLoop, hkey1]
    rw [parseLoop_cont_block (splitNl v) _ (n + 1) rest k rfl (fun l hl => hv l hl)]
    simp only [List.nil_append, List.length_cons, List.length_map]
    rw [show n + 1 + (splitNl v).length = n + ((splitNl v).length + 1) by omega]
  · rw [if_neg hnl, beq_iff_eq] at hv
    refine ⟨if v.isEmpty then [] else [v], ?_, ?_⟩
    · split
      · next h => rw [List.isEmpty_iff.mp h]; rfl
      · rfl
    · have hdf : dumpFieldLines k v = [k ++ ':' :: ' ' :: v] := by
        unfold dumpFieldLines
        rw [if_neg hnl]
      rw [hdf]
      have hsv : stripChars (' ' :: v) = v := by
        rw [stripChars_cons_space ' ' v (by decide)]
        exact hv
      have hkey1 : processLine st n (k ++ ':' :: ' ' :: v)
          = .ok { records := st.records, fields := (flushField st).fields,
                  key := some k,
                  valueParts := if v.isEmpty then [] else [v] } := by
        rw [processLine_keyline st n k (' ' :: v) hk hdup, hsv]
      simp only [List.singleton_append, parseLoop, hkey1, List.length_singleton]
      rfl

/-- Running the parser over all lines a dumped record contributes: the
fields of the record under construction grow by exactly the fields of
the record. -/
theorem parseLoop_record (rl : RecL) :
    ∀ (st : ParserState) (n : Nat) (rest : List (List Char)),
    (∀ p ∈ rl, wfKeyB p.1 = true ∧ wfValB p.2 = true) →
    nodupKeysB rl = true →
    (∀ p ∈ rl, lookupStr p.1 (flushField st).fields = none) →
    ∃ st2, parseLoop st n ((rl.flatMap fun p => dumpFieldLines p.1 p.2) ++ rest)
        = parseLoop st2 (n + (rl.flatMap fun p => dumpFieldLines p.1 p.2).length) rest ∧
      st2.records = st.records ∧
      (flushField st2).fields = (flushField st).fields ++ rl := by
  induction rl with
  | nil =>
    intro st n rest _ _ _
    exact ⟨st, by simp, rfl, by simp⟩
  | cons p rl ih =>
    intro st n rest hwf hnd hlk
    obtain ⟨k, v⟩ := p
    obtain ⟨hk, hv⟩ := hwf (k, v) (List.mem_cons_self _ _)
    obtain ⟨parts, hparts, hblock⟩ := parseLoop_field_block st n k v
      ((rl.flatMap fun p => dumpFieldLines p.1 p.2) ++ rest) hk hv
      (hlk (k, v) (List.mem_cons_self _ _))
    have hff1 : (flushField { records := st.records, fields := (flushField st).fields,
                              key := some k, valueParts := parts }).fields
        = (flushField st).fields ++ [(k, v)] := by
      show (flushField st).fields ++ [(k, joinNl parts)] = _
      rw [hparts]
    have hnd2 : nodupKeysB rl = true := by
      unfold nodupKeysB at hnd
      rw [Bool.and_eq_true] at hnd
      exact hnd.2
    have hknotin : lookupStr k rl = none := by
      unfold nodupKeysB at hnd
      rw [Bool.and_eq_true] at hnd
      exact Option.isNone_iff_eq_none.mp hnd.1
    have hlk2 : ∀ q ∈ rl, lookupStr q.1
        (flushField { records := st.records, fields := (flushField st).fields,
                      key := some k, valueParts := parts }).fields = none := by
      intro q hq
      rw [hff1, lookupStr_append, hlk q (List.mem_cons_of_mem _ hq)]
      dsimp only
      unfold lookupStr
      rw [if_neg (fun hcon => (lookupStr_eq_none_keys hknotin q hq) hcon.symm)]
      rfl
    obtain ⟨st2, heq2, hrec2, hfields2⟩ := ih
      { records := st.records, fields := (flushField st).fields,
        key := some k, valueParts := parts }
      (n + (dumpFieldLines k v).length) rest
      (fun q hq => hwf q (List.mem_cons_of_mem _ hq)) hnd2 hlk2
    refine ⟨st2, ?_, ?_, ?_⟩
    · rw [List.flatMap_cons, List.append_assoc, hblock, heq2,
        show n + (dumpFieldLines k v).length
            + (rl.flatMap fun p => dumpFieldLines p.1 p.2).length
          = n + (dumpFieldLines k v ++ rl.flatMap fun p => dumpFieldLines p.1 p.2).length by
          rw [List.length_append]; omega]
    · rw [hrec2]
    · rw [hfields2, hff1, List.append_assoc]
      simp

theorem dumpCont_no_newline {x : List Char} (hx : '\n' ∉ x) : '\n' ∉ dumpCont x := by
  unfold dumpCont
  split
  · decide
  · split
    · intro h
      rcases List.mem_cons.mp h with h | h
      · exact absurd h (by decide)
      · rcases List.mem_cons.mp h with h | h
        · exact absurd h (by decide)
        · exact hx h
    · intro h
      rcases List.mem_cons.mp h with h | h
      · exact absurd h (by decide)
      · exact hx h

theorem dumpFieldLines_no_newline {k v l : List Char} (hk : wfKeyB k = true)
    (hl : l ∈ dumpFieldLines k v) : '\n' ∉ l := by
  obtain ⟨-, -, -, hkn⟩ := wfKeyB_parts hk
  unfold dumpFieldLines at hl
  split at hl
  · rcases List.mem_cons.mp hl with rfl | hl
    · intro h
      rcases List.mem_append.mp h with h | h
      · exact hkn h
      · exact absurd (List.mem_singleton.mp h) (by decide)
    · obtain ⟨x, hx, rfl⟩ := List.mem_map.mp hl
      exact dumpCont_no_newline (splitNl_no_newline hx)
  · next hnl =>
    rcases List.mem_singleton.mp hl with rfl
    intro h
    rcases List.mem_append.mp h with h | h
    · exact hkn h
    · rcases List.mem_cons.mp h with h | h
      · exact absurd h (by decide)
      · rcases List.mem_cons.mp h with h | h
        · exact absurd h (by decide)
        · exact hnl h

theorem dumpLines_no_newline {rl : RecL} (h : ∀ p ∈ rl, wfKeyB p.1 = true) :
    ∀ l ∈ dumpLines rl, '\n' ∉ l := by
  intro l hl
  unfold dumpLines at hl
  rcases List.mem_append.mp hl with hl | hl
  · obtain ⟨p, hp, hpl⟩ := List.mem_flatMap.mp hl
    exact dumpFieldLines_no_newline (h p hp) hpl
  · rcases List.mem_singleton.mp hl with rfl
    simp

theorem dumpLines_ne_nil (rl : RecL) : dumpLines rl ≠ [] := by
  unfold dumpLines
  simp

/-- Boundary conversion cancels: reading the characters of the
strings back as strings is the identity. -/
theorem recOfRecL_map (r : Rec) :
    recOfRecL (r.map fun p => (p.1.data, p.2.data)) = r := by
  induction r with
  | nil => rfl
  | cons q t iht =>
    unfold recOfRecL at iht ⊢
    rw [List.map_cons, List.map_cons, iht]

end rfc822

/-- Claim C3 (counterexample): the round-trip law does not hold for
every record whose values are free of embedded blank-line sequences.
The record mapping `key` to `" v"` satisfies that precondition (its one
line is not blank), yet writing it and parsing the result yields a
record mapping `key` to `"v"`: the parser strips the leading whitespace
of an inline value, so the field mappings differ. -/
theorem claim_C3_roundtrip_counterexample :
    rfc822.valueFreeOfBlankLineSeq " v" = true ∧
    rfc822.dump [("key", " v")] = "key:  v\n\n" ∧
    rfc822.load_rfc822_records (rfc822.dump [("key", " v")]) = .ok [[("key", "v")]] ∧
    [[(("key" : String), ("v" : String))]] ≠ [[(("key" : String), (" v" : String))]] := by
  exact ⟨by decide, rfl, rfl, by decide⟩

/-- Claim C3 (amended): the write-then-parse round trip holds for every
non-empty record with pairwise distinct keys, where each key is its own
stripped form and free of colons and newlines, each single-line value is
its own stripped form, and each line of a multi-line value is neither
whitespace-only (unless empty) nor a whitespace-padded run of periods.
Under these conditions parsing the dumped text yields exactly the one
original record, with the same field mapping in the same order. -/
theorem claim_C3_roundtrip_amended :
    (∀ r : rfc822.Rec, rfc822.wellFormed r = true →
      rfc822.load_rfc822_records (rfc822.dump r) = .ok [r]) ∧
    rfc822.wellFormed [("key", "longer\n\nvalue"), ("unit", "job")] = true ∧
    rfc822.load_rfc822_records (rfc822.dump [("key", "longer\n\nvalue"), ("unit", "job")])
      = .ok [[("key", "longer\n\nvalue"), ("unit", "job")]] := by
  refine ⟨?_, by decide, rfl⟩
  intro r hwf
  unfold rfc822.wellFormed at hwf
  rw [Bool.and_eq_true, Bool.and_eq_true, List.all_eq_true] at hwf
  obtain ⟨⟨hne, hnd⟩, hall⟩ := hwf
  have hkv : ∀ p ∈ (r.map fun p => (p.1.data, p.2.data)),
      rfc822.wfKeyB p.1 = true ∧ rfc822.wfValB p.2 = true := by
    intro p hp
    have h := hall p hp
    rw [Bool.and_eq_true] at h
    exact h
  have hlines : pyLines (rfc822.dump r).data
      = rfc822.dumpLines (r.map fun p => (p.1.data, p.2.data)) :=
    pyLines_encode _ (rfc822.dumpLines_ne_nil _)
      (rfc822.dumpLines_no_newline (fun p hp => (hkv p hp).1))
  have hinit : ∀ p ∈ (r.map fun p => (p.1.data, p.2.data)),
      lookupStr p.1 (rfc822.flushField rfc822.initState).fields = none :=
    fun p _ => rfl
  obtain ⟨st2, heq, hrec, hfields⟩ :=
    rfc822.parseLoop_record (r.map fun p => (p.1.data, p.2.data))
      rfc822.initState 1 [[]] hkv hnd hinit
  unfold rfc822.load_rfc822_records rfc822.parseChars
  rw [hlines]
  unfold rfc822.dumpLines
  rw [heq]
  have hblank : ∀ (st : rfc822.ParserState) (m : Nat),
      rfc822.processLine st m [] = .ok (rfc822.flushRecord st) := fun st m => rfl
  simp only [rfc822.parseLoop, hblank, Except.map]
  have hfr2 : (rfc822.flushField st2).fields = r.map (fun p => (p.1.data, p.2.data)) := by
    rw [hfields]
    rfl
  have hrne : r.map (fun p => (p.1.data, p.2.data)) ≠ [] := by
    intro hcon
    have : r = [] := by
      cases r with
      | nil => rfl
      | cons a b => simp at hcon
    rw [this] at hne
    simp at hne
  have hflush : rfc822.flushRecord st2
      = { rfc822.flushField st2 with
          records := st2.records ++ [(rfc822.flushField st2).fields],
          fields := [] } := by
    unfold rfc822.flushRecord
    rw [if_neg (by
      rw [hfr2]
      simp only [List.isEmpty_iff]
      exact hrne)]
  have hfinal : (rfc822.flushRecord (rfc822.flushRecord st2)).records
      = st2.records ++ [(rfc822.flushField st2).fields] := by
    rw [hflush]
    rfl
  rw [hfinal, hfr2, hrec,
    show rfc822.initState.records = [] from rfl]
  simp only [List.nil_append, List.map_cons, List.map_nil]
  rw [rfc822.recOfRecL_map r]

end Plainbox
